import Mathlib

/-!
# kacchiOS — formal model of the allocator, process table and scheduler

A shallow embedding of the C sources of kacchiOS (`memory.c`, `process.c`,
`scheduler.c`).  Machine words are modelled as `Nat` (no arithmetic in the
embedded fragment ever wraps: addresses stay inside the 30 MiB arena and the
counters only grow), pointers as addresses or process identifiers, the serial
console as a list of emitted lines.  Each C function becomes an executable
Lean definition over an explicit state record; the loops of `memory.c` are
written as structurally recursive functions on an explicit iteration bound
(chosen so the bound never runs out while the C loop guard still holds, which
keeps the definitions kernel-computable).
-/

/-! ## memory.h constants -/

def HEAP_START : Nat := 0x200000
def HEAP_SIZE : Nat := 0x1E00000
def STACK_SIZE : Nat := 0x4000
def MAX_BLOCKS : Nat := 1024
def MAX_PROCESS_STACKS : Nat := 32

/-- One record of the `heap_blocks` table (`heap_block_t`).  The C field
`is_free` is compared against `BLOCK_FREE` (0) everywhere, so we model it as a
`Bool` that is `true` when the block is free.  The `next` field of the C
struct is written by `split_block`/`merge_free_blocks` but never read by any
function in the repository, so it is not part of the model. -/
structure HeapBlock where
  address : Nat
  size : Nat
  isFree : Bool
deriving Repr, DecidableEq

/-- Default used for (always in-range) index accesses into block lists. -/
def dummyBlock : HeapBlock := ⟨0, 0, false⟩

/-- One record of the `stack_table` (`stack_descriptor_t`). -/
structure StackSlot where
  base : Nat
  top : Nat
  size : Nat
  pid : Nat
  isFree : Bool
deriving Repr, DecidableEq

/-- The static state of `memory.c`: the in-use prefix of the `heap_blocks`
array (its length is `num_heap_blocks`), the `heap_used` counter, the stack
table with its `num_stacks` counter, and the serial log. -/
structure MemState where
  heapBlocks : List HeapBlock
  heapUsed : Nat
  stackTable : List StackSlot
  numStacks : Nat
  log : List String
deriving Repr, DecidableEq

/-- `memory_init`: one free block covering the whole arena, an empty stack
table. -/
def memory_init : MemState :=
  { heapBlocks := [⟨HEAP_START, HEAP_SIZE, true⟩]
    heapUsed := 0
    stackTable := List.replicate MAX_PROCESS_STACKS ⟨0, 0, 0, 0, true⟩
    numStacks := 0
    log := ["[MEMORY] Memory manager initialized"] }

/-- `find_free_block`: first-fit scan of the block table. Returns the index of
the first free block of at least `size` bytes (the C function returns the
pointer `&heap_blocks[i]`). -/
def find_free_block (bs : List HeapBlock) (size : Nat) : Option Nat :=
  bs.findIdx? (fun b => b.isFree && size ≤ b.size)

/-- `split_block`: if the chosen block exceeds the request by more than 32
bytes and the block table has capacity, truncate it to the request and append
a free remainder record at index `num_heap_blocks` (the end of the in-use
prefix). -/
def split_block (bs : List HeapBlock) (i : Nat) (size : Nat) : List HeapBlock :=
  let b := bs.getD i dummyBlock
  if size + 32 < b.size ∧ bs.length < MAX_BLOCKS then
    (bs.set i { b with size := size }) ++ [⟨b.address + size, b.size - size, true⟩]
  else bs

/-- Inner `j` loop of `merge_free_blocks`, for a fixed outer index `i`.  The C
loop runs `j` from `i+1` while `j < num_heap_blocks`; when block `j` is free
and starts exactly at the end of block `i`, block `j` is merged into block `i`
and removed by shifting (`j--` then `j++` re-examines the shifted slot, i.e.
`j` is unchanged).  The first argument is an iteration bound maintained
`≥ bs.length - j`, so the bound reaches 0 only when the loop guard
`j < num_heap_blocks` is already false; each recursive call decreases it
because either `j` grows or the list shrinks. -/
def mergeInnerGo : Nat → List HeapBlock → Nat → Nat → List HeapBlock
  | 0, bs, _, _ => bs
  | g + 1, bs, i, j =>
    if j < bs.length then
      let bi := bs.getD i dummyBlock
      let bj := bs.getD j dummyBlock
      if bj.isFree && (bj.address == bi.address + bi.size) then
        mergeInnerGo g ((bs.set i { bi with size := bi.size + bj.size }).eraseIdx j) i j
      else
        mergeInnerGo g bs i (j + 1)
    else bs

/-- Outer `i` loop of `merge_free_blocks`: for each free block `i` run the
inner merge loop from `j = i+1`.  The C guard is `i < num_heap_blocks - 1` on
unsigned arithmetic; for the (always reachable) case `num_heap_blocks ≥ 1` it
is `i + 1 < num_heap_blocks`, which is the guard used here.  The iteration
bound is maintained `≥ bs.length - i`. -/
def mergeOuterGo : Nat → List HeapBlock → Nat → List HeapBlock
  | 0, bs, _ => bs
  | g + 1, bs, i =>
    if i + 1 < bs.length then
      let bi := bs.getD i dummyBlock
      let bs2 := if bi.isFree then mergeInnerGo (bs.length - (i + 1)) bs i (i + 1) else bs
      mergeOuterGo g bs2 (i + 1)
    else bs

/-- `merge_free_blocks`: coalesce the block table (see the two loop
functions). -/
def merge_free_blocks (bs : List HeapBlock) : List HeapBlock :=
  mergeOuterGo bs.length bs 0

/-- `size = (size + 3) & ~3`, computed on the kernel's 32-bit `size_t`: the
addition wraps modulo 2^32 and the low two bits are cleared.  For sizes up to
0xFFFFFFFC this rounds up to the next 4-byte boundary; for 0xFFFFFFFD,
0xFFFFFFFE and 0xFFFFFFFF the wrapped sum is 0, 1 or 2 and the result is 0. -/
def roundUp4 (n : Nat) : Nat := (n + 3) % 4294967296 / 4 * 4

/-- Shared tail of `kmalloc` once a block index is chosen: split, mark
allocated, account `heap_used`, return the block's start address. -/
def kmalloc_commit (s : MemState) (bs : List HeapBlock) (i : Nat) (size : Nat) :
    Option Nat × MemState :=
  let bs2 := split_block bs i size
  let b := bs2.getD i dummyBlock
  (some b.address,
    { s with heapBlocks := bs2.set i { b with isFree := false }
             heapUsed := s.heapUsed + b.size })

/-- `kmalloc`: zero-size requests fail; otherwise round the size up to 4
bytes, first-fit search, on failure coalesce and retry once, then split, mark
allocated and return the start address (`none` models a NULL return). -/
def kmalloc (s : MemState) (size : Nat) : Option Nat × MemState :=
  if size = 0 then (none, s)
  else
    let sz := roundUp4 size
    match find_free_block s.heapBlocks sz with
    | some i => kmalloc_commit s s.heapBlocks i sz
    | none =>
      let bs := merge_free_blocks s.heapBlocks
      match find_free_block bs sz with
      | some i => kmalloc_commit s bs i sz
      | none =>
        (none, { s with heapBlocks := bs
                        log := s.log ++ ["[MEMORY] kmalloc failed: out of memory"] })

/-- `kfree`: address 0 models the C NULL pointer.  Find the block starting at
`ptr`; double frees and unknown addresses are reported on the serial log and
leave the heap untouched; otherwise mark free, debit `heap_used` and
coalesce. -/
def kfree (s : MemState) (ptr : Nat) : MemState :=
  if ptr = 0 then s
  else
    match s.heapBlocks.findIdx? (fun b => b.address == ptr) with
    | some i =>
      let b := s.heapBlocks.getD i dummyBlock
      if b.isFree then
        { s with log := s.log ++ ["[MEMORY] Warning: Double free detected"] }
      else
        { s with heapBlocks := merge_free_blocks (s.heapBlocks.set i { b with isFree := true })
                 heapUsed := s.heapUsed - b.size }
    | none => { s with log := s.log ++ ["[MEMORY] Warning: Attempt to free invalid pointer"] }

/-- `krealloc`.  The byte copy (`memcpy`) acts on heap contents, which are
outside this metadata model. -/
def krealloc (s : MemState) (ptr : Nat) (newSize : Nat) : Option Nat × MemState :=
  if ptr = 0 then kmalloc s newSize
  else if newSize = 0 then (none, kfree s ptr)
  else
    match s.heapBlocks.find? (fun b => b.address == ptr) with
    | none => (none, s)
    | some old =>
      if newSize ≤ old.size then (some ptr, s)
      else
        match kmalloc s newSize with
        | (none, s2) => (none, s2)
        | (some p, s2) => (some p, kfree s2 ptr)

/-- `kcalloc` (`memset` acts on heap contents, outside the metadata model). -/
def kcalloc (s : MemState) (num size : Nat) : Option Nat × MemState :=
  kmalloc s (num * size)

/-- Start of the stack region (immediately after the heap). -/
def stack_region_start : Nat := HEAP_START + HEAP_SIZE

/-- `stack_alloc`: bind the lowest-index free slot to `pid` and return the
top address of the slab (stacks grow downward). -/
def stack_alloc (s : MemState) (pid : Nat) : Option Nat × MemState :=
  match s.stackTable.findIdx? (fun slot => slot.isFree) with
  | some i =>
    let base := stack_region_start + i * STACK_SIZE
    let top := base + STACK_SIZE
    (some top,
      { s with stackTable := s.stackTable.set i ⟨base, top, STACK_SIZE, pid, false⟩
               numStacks := s.numStacks + 1 })
  | none => (none, { s with log := s.log ++ ["[MEMORY] stack_alloc failed: no free stack slots"] })

/-- `stack_free`: release the slot owned by `pid` (no-op when absent). -/
def stack_free (s : MemState) (pid : Nat) : MemState :=
  match s.stackTable.findIdx? (fun slot => !slot.isFree && slot.pid == pid) with
  | some i =>
    { s with stackTable := s.stackTable.set i ⟨0, 0, 0, 0, true⟩
             numStacks := s.numStacks - 1 }
  | none => s

/-- `stack_get_base`. -/
def stack_get_base (s : MemState) (pid : Nat) : Option Nat :=
  (s.stackTable.find? (fun slot => !slot.isFree && slot.pid == pid)).map (·.base)

/-- `stack_get_top`. -/
def stack_get_top (s : MemState) (pid : Nat) : Option Nat :=
  (s.stackTable.find? (fun slot => !slot.isFree && slot.pid == pid)).map (·.top)

/-- `memory_defragment`. -/
def memory_defragment (s : MemState) : MemState :=
  { s with heapBlocks := merge_free_blocks s.heapBlocks
           log := s.log ++ ["[MEMORY] Heap defragmented"] }

/-! ## process.h data model -/

def MAX_PROCESSES : Nat := 32

def PROC_PRIORITY_LOW : Nat := 0
def PROC_PRIORITY_NORMAL : Nat := 1
def PROC_PRIORITY_HIGH : Nat := 2
def PROC_PRIORITY_CRITICAL : Nat := 3

/-- `process_state_t`. -/
inductive PState where
  | ready
  | current
  | terminated
  | blocked
  | waiting
  | sleeping
deriving Repr, DecidableEq

/-- `cpu_context_t`: sixteen 32-bit registers. -/
structure CpuContext where
  eax : Nat := 0
  ebx : Nat := 0
  ecx : Nat := 0
  edx : Nat := 0
  esi : Nat := 0
  edi : Nat := 0
  ebp : Nat := 0
  esp : Nat := 0
  eip : Nat := 0
  eflags : Nat := 0
  cs : Nat := 0
  ds : Nat := 0
  es : Nat := 0
  fs : Nat := 0
  gs : Nat := 0
  ss : Nat := 0
deriving Repr, DecidableEq

/-- `memset(&proc->context, 0, sizeof(cpu_context_t))`. -/
def zeroContext : CpuContext := {}

/-- `process_t`.  `msg_count` is the length of `messageQueue`; the intrusive
`next`/`prev` queue links are represented by the position of the PCB's pid in
the ready-queue list of the kernel state.  `heapAddr` records the address the
PCB was `kmalloc`ed at (the value of the C pointer to it), which
`process_terminate` passes to `kfree`.  The fields `requiredTime`,
`remainingTime` and `remainingSlice` are used by `process.c` and `scheduler.c`
but missing from the shipped `process.h` (header drift); they are modelled as
the spec describes them. -/
structure PCB where
  pid : Nat
  name : String
  state : PState
  priority : Nat
  stackBase : Nat
  stackTop : Nat
  stackSize : Nat
  context : CpuContext
  timeQuantum : Nat
  cpuTime : Nat
  waitTime : Nat
  creationTime : Nat
  messageQueue : List Nat
  waitingForMsg : Bool
  parentPid : Nat
  exitCode : Int
  age : Nat
  requiredTime : Nat
  remainingTime : Nat
  remainingSlice : Nat
  heapAddr : Nat
deriving Repr, DecidableEq

/-- `sizeof(process_t)` on the i386 ABI the kernel targets (4-byte alignment,
no padding), including the three scheduler-simulation fields absent from the
shipped header.  No claim depends on the exact figure. -/
def sizeof_process_t : Nat := 244

/-- `sched_policy_t`. -/
inductive SchedPolicy where
  | roundRobin
  | priority
  | priorityRR
  | fcfs
deriving Repr, DecidableEq

/-- The static state of `process.c` and `scheduler.c` together with the
memory manager.  `processTable` is the 32-slot array of PCB pointers (a slot
owns the PCB it points at); `current` and the `readyQueue` entries are pids;
`simSchedEnabled`/`lastSwitchTick` are the statics of the scheduler simulation
inside `process.c`; the remaining fields are `scheduler.c`'s `sched_config`,
`sched_stats`, `scheduler_running`, `current_tick` and
`time_slice_remaining`.  Serial output of these two files is not modelled (no
claim observes it); the memory manager's log lives in `mem`. -/
structure KState where
  mem : MemState
  processTable : List (Option PCB)
  nextPid : Nat
  current : Option Nat
  readyQueue : List Nat
  totalCreated : Nat
  systemTicks : Nat
  simSchedEnabled : Bool
  lastSwitchTick : Nat
  policy : SchedPolicy
  defaultQuantum : Nat
  minQuantum : Nat
  maxQuantum : Nat
  agingThreshold : Nat
  agingInterval : Nat
  enableAging : Bool
  enablePreemption : Bool
  statSwitches : Nat
  statTotalTicks : Nat
  statIdleTicks : Nat
  statAgingBoosts : Nat
  statPreemptions : Nat
  statYields : Nat
  schedulerRunning : Bool
  currentTick : Nat
  timeSliceRemaining : Nat
deriving Repr, DecidableEq

/-- State after boot-time `memory_init()` and `process_init()` (all other
statics hold their zero initialisers, `SCHED_POLICY_ROUND_ROBIN` being the
zero member of its enum). -/
def kernelBoot : KState :=
  { mem := memory_init
    processTable := List.replicate MAX_PROCESSES none
    nextPid := 1
    current := none
    readyQueue := []
    totalCreated := 0
    systemTicks := 0
    simSchedEnabled := false
    lastSwitchTick := 0
    policy := SchedPolicy.roundRobin
    defaultQuantum := 0
    minQuantum := 0
    maxQuantum := 0
    agingThreshold := 0
    agingInterval := 0
    enableAging := false
    enablePreemption := false
    statSwitches := 0
    statTotalTicks := 0
    statIdleTicks := 0
    statAgingBoosts := 0
    statPreemptions := 0
    statYields := 0
    schedulerRunning := false
    currentTick := 0
    timeSliceRemaining := 0 }

/-- `process_get_by_pid`: linear scan of the process table. -/
def lookupPid (s : KState) (pid : Nat) : Option PCB :=
  (s.processTable.find? (fun slot =>
    match slot with
    | some p => p.pid == pid
    | none => false)).bind id

/-- Mutation through a PCB pointer obtained by `process_get_by_pid`: rewrite
the table entry holding `pid` (pids are unique, so at most one entry
matches). -/
def updatePid (s : KState) (pid : Nat) (f : PCB → PCB) : KState :=
  { s with processTable := s.processTable.map (fun slot =>
      match slot with
      | some p => if p.pid = pid then some (f p) else some p
      | none => none) }

/-- `process_add_to_table`: first NULL slot (table-full warning only logs). -/
def process_add_to_table (s : KState) (p : PCB) : KState :=
  match s.processTable.findIdx? (fun slot => slot.isNone) with
  | some i => { s with processTable := s.processTable.set i (some p) }
  | none => s

/-- `process_remove_from_table`. -/
def process_remove_from_table (s : KState) (pid : Nat) : KState :=
  match s.processTable.findIdx? (fun slot =>
      match slot with
      | some p => p.pid == pid
      | none => false) with
  | some i => { s with processTable := s.processTable.set i none }
  | none => s

/-- `proc->priority` read through a ready-queue link.  Reading a freed PCB
(possible after the dead-unlink slip in `process_terminate`) is undefined
behaviour in C; the model returns 0.  No theorem below depends on that case. -/
def queuePriority (s : KState) (pid : Nat) : Nat :=
  match lookupPid s pid with
  | some p => p.priority
  | none => 0

/-- The `while (current->next != NULL && current->next->priority >=
proc->priority) current = current->next;` walk of
`process_add_to_ready_queue`, followed by the insertion after `current`:
`cur` is the node the walk stands on, `rest` the nodes after it. -/
def readyInsertWalk (s : KState) (pid : Nat) (cur : Nat) (rest : List Nat) : List Nat :=
  match rest with
  | [] => [cur, pid]
  | n :: t =>
    if queuePriority s pid ≤ queuePriority s n then
      cur :: readyInsertWalk s pid n t
    else
      cur :: pid :: n :: t

/-- `process_add_to_ready_queue`: sets the state to `Ready` first, then
inserts by priority — at the head when strictly higher-priority than the
head, otherwise after the last node of priority ≥ the new one. -/
def process_add_to_ready_queue (s : KState) (pid : Nat) : KState :=
  let s := updatePid s pid (fun p => { p with state := PState.ready })
  match s.readyQueue with
  | [] => { s with readyQueue := [pid] }
  | h :: t =>
    if queuePriority s h < queuePriority s pid then
      { s with readyQueue := pid :: h :: t }
    else
      { s with readyQueue := readyInsertWalk s pid h t }

/-- `process_remove_from_ready_queue` unlinks a node via its `prev`/`next`
pointers.  For a node that is linked this removes its (unique) occurrence.
For a node that is NOT linked its pointers are NULL — exactly the situation
when a caller already dequeued it — and the C body then executes
`ready_queue_head = proc->next` (= NULL) and `ready_queue_tail = proc->prev`
(= NULL), discarding the whole remaining queue.  Both behaviours are
reproduced. -/
def process_remove_from_ready_queue (s : KState) (pid : Nat) : KState :=
  if pid ∈ s.readyQueue then { s with readyQueue := s.readyQueue.erase pid }
  else { s with readyQueue := [] }

/-- `process_dequeue_ready`: pop the queue head. -/
def process_dequeue_ready (s : KState) : Option Nat × KState :=
  match s.readyQueue with
  | [] => (none, s)
  | h :: _ => (some h, process_remove_from_ready_queue s h)

/-- `process_set_state`: update the state, reconcile ready-queue membership,
maintain the current pointer. -/
def process_set_state (s : KState) (pid : Nat) (newState : PState) : KState :=
  match lookupPid s pid with
  | none => s
  | some p =>
    let oldState := p.state
    let s := updatePid s pid (fun q => { q with state := newState })
    let s :=
      if oldState = PState.ready ∧ newState ≠ PState.ready then
        process_remove_from_ready_queue s pid
      else if oldState ≠ PState.ready ∧ newState = PState.ready then
        process_add_to_ready_queue s pid
      else s
    if newState = PState.current then { s with current := some pid }
    else if s.current = some pid then { s with current := none }
    else s

/-- `process_block`. -/
def process_block (s : KState) (pid : Nat) : KState :=
  process_set_state s pid PState.blocked

/-- `process_unblock`. -/
def process_unblock (s : KState) (pid : Nat) : KState :=
  process_set_state s pid PState.ready

/-- `process_count`: live table entries. -/
def process_count (s : KState) : Nat :=
  (s.processTable.filter (fun slot => slot.isSome)).length

/-- `process_init_pcb` (assigns `next_pid++` and the §3 defaults) paired with
the heap address of the PCB being initialised. -/
def process_init_pcb (s : KState) (heapAddr : Nat) (name : String) (priority : Nat) :
    PCB × KState :=
  ({ pid := s.nextPid
     name := name.take 31
     state := PState.ready
     priority := priority
     stackBase := 0
     stackTop := 0
     stackSize := 0
     context := zeroContext
     timeQuantum := 100
     cpuTime := 0
     waitTime := 0
     creationTime := s.systemTicks
     messageQueue := []
     waitingForMsg := false
     parentPid := s.current.getD 0
     exitCode := 0
     age := 0
     requiredTime := 0
     remainingTime := 0
     remainingSlice := 0
     heapAddr := heapAddr },
   { s with nextPid := s.nextPid + 1 })

/-- `process_create`.  The C function returns the PCB pointer; the model
returns the new pid (`none` for NULL). -/
def process_create (s : KState) (name : String) (entryPoint : Nat) (priority : Nat) :
    Option Nat × KState :=
  match kmalloc s.mem sizeof_process_t with
  | (none, m) => (none, { s with mem := m })
  | (some addr, m) =>
    let s := { s with mem := m }
    let (pcb, s) := process_init_pcb s addr name priority
    match stack_alloc s.mem pcb.pid with
    | (none, m2) => (none, { s with mem := kfree m2 addr })
    | (some top, m2) =>
      let s := { s with mem := m2 }
      let base := (stack_get_base s.mem pcb.pid).getD 0
      let pcb := { pcb with
        stackTop := top
        stackBase := base
        stackSize := STACK_SIZE
        context := { zeroContext with eip := entryPoint, esp := top, ebp := top, eflags := 0x202 } }
      let s := process_add_to_table s pcb
      let s := process_add_to_ready_queue s pcb.pid
      (some pcb.pid, { s with totalCreated := s.totalCreated + 1 })

/-- `process_terminate`.  Note the source sets `proc->state =
PROC_STATE_TERMINATED` and only then tests `proc->state == PROC_STATE_READY`,
so the ready-queue unlink guarded by that test is dead code; the model
re-reads the state from the table exactly as the C code re-reads the field it
just wrote. -/
def process_terminate (s : KState) (pid : Nat) : KState :=
  match lookupPid s pid with
  | none => s
  | some proc0 =>
    let s := updatePid s pid (fun p => { p with state := PState.terminated })
    let s :=
      match lookupPid s pid with
      | some p => if p.state = PState.ready then process_remove_from_ready_queue s pid else s
      | none => s
    let s := { s with mem := stack_free s.mem pid }
    let s := process_remove_from_table s pid
    let s := { s with mem := kfree s.mem proc0.heapAddr }
    if s.current = some pid then { s with current := none } else s

/-- `process_boost_priority`: one step up unless already `Critical`, with
ready-queue re-insertion. -/
def process_boost_priority (s : KState) (pid : Nat) : KState :=
  match lookupPid s pid with
  | none => s
  | some p =>
    if p.priority < PROC_PRIORITY_CRITICAL then
      let s := updatePid s pid (fun q => { q with priority := q.priority + 1 })
      if p.state = PState.ready then
        process_add_to_ready_queue (process_remove_from_ready_queue s pid) pid
      else s
    else s

/-- `process_reset_age`. -/
def process_reset_age (s : KState) (pid : Nat) : KState :=
  updatePid s pid (fun p => { p with age := 0 })

/-- `process_send_message`: status `-1` on unknown destination or a full
(16-entry) mailbox; otherwise append at the tail and, when the destination
was waiting for a message, clear the flag and unblock it. -/
def process_send_message (s : KState) (destPid msg : Nat) : Int × KState :=
  match lookupPid s destPid with
  | none => (-1, s)
  | some dest =>
    if 16 ≤ dest.messageQueue.length then (-1, s)
    else
      let s := updatePid s destPid (fun p => { p with messageQueue := p.messageQueue ++ [msg] })
      if dest.waitingForMsg then
        let s := updatePid s destPid (fun p => { p with waitingForMsg := false })
        (0, process_unblock s destPid)
      else (0, s)

/-- `process_receive_message`: the received word is returned instead of being
written through the out-parameter. -/
def process_receive_message (s : KState) : Int × Option Nat × KState :=
  match s.current with
  | none => (-1, none, s)
  | some pid =>
    match lookupPid s pid with
    | none => (-1, none, s)
    | some p =>
      if p.messageQueue.length = 0 then
        let s := updatePid s pid (fun q => { q with waitingForMsg := true })
        (-1, none, process_block s pid)
      else
        let msg := p.messageQueue.headD 0
        let s := updatePid s pid (fun q => { q with messageQueue := q.messageQueue.tail })
        (0, some msg, s)

/-! ## Scheduler simulation inside process.c

`process.c` and `scheduler.c` both define `scheduler_init`, `scheduler_tick`
and `scheduler_schedule`; the two sets are kept apart in the namespaces
`ProcessC` and `SchedulerC`.  `process_create_with_time` lives in `process.c`
and drives that file's own `scheduler_schedule`. -/

/-- Modelled from the spec: the per-priority quantum constants
`QUANTUM_CRITICAL`, `QUANTUM_HIGH`, `QUANTUM_NORMAL` and `QUANTUM_LOW` used by
`process.c` come from a header that is not part of the provided sources.  The
spec fixes the default quantum at 100 ticks and no claim depends on the
individual values, so all four are modelled as 100. -/
def QUANTUM_CRITICAL : Nat := 100

/-- Modelled from the spec: see `QUANTUM_CRITICAL`. -/
def QUANTUM_HIGH : Nat := 100

/-- Modelled from the spec: see `QUANTUM_CRITICAL`. -/
def QUANTUM_NORMAL : Nat := 100

/-- Modelled from the spec: see `QUANTUM_CRITICAL`. -/
def QUANTUM_LOW : Nat := 100

/-- `get_time_quantum` (process.c). -/
def get_time_quantum (priority : Nat) : Nat :=
  if priority = PROC_PRIORITY_CRITICAL then QUANTUM_CRITICAL
  else if priority = PROC_PRIORITY_HIGH then QUANTUM_HIGH
  else if priority = PROC_PRIORITY_NORMAL then QUANTUM_NORMAL
  else if priority = PROC_PRIORITY_LOW then QUANTUM_LOW
  else QUANTUM_NORMAL

namespace ProcessC

/-- `scheduler_init` (process.c): enable the simulation. -/
def scheduler_init (s : KState) : KState :=
  { s with simSchedEnabled := true, lastSwitchTick := 0 }

/-- `scheduler_context_switch` (process.c): requeue the outgoing `Current`
process, dequeue the incoming one, mark it `Current`, refill its slice and
reset its age. -/
def scheduler_context_switch (s : KState) (newPid : Option Nat) : KState :=
  let s :=
    match s.current with
    | some oldPid =>
      match lookupPid s oldPid with
      | some oldP =>
        if oldP.state = PState.current then process_add_to_ready_queue s oldPid else s
      | none => s
    | none => s
  let s :=
    match newPid with
    | some np =>
      let s := process_remove_from_ready_queue s np
      let s := updatePid s np (fun p =>
        { p with state := PState.current, remainingSlice := get_time_quantum p.priority })
      let s := process_reset_age s np
      { s with current := some np }
    | none => { s with current := none }
  { s with lastSwitchTick := s.systemTicks }

/-- `scheduler_schedule` (process.c): switch to the ready-queue head when
there is no current process, when the head outranks the current process, or
when the current process exhausted its slice or its required time. -/
def scheduler_schedule (s : KState) : KState :=
  if !s.simSchedEnabled then s
  else
    match s.current, s.readyQueue.head? with
    | none, some np => ProcessC.scheduler_context_switch s (some np)
    | none, none => s
    | some cp, some np =>
      match lookupPid s cp with
      | none => s
      | some cur =>
        if cur.priority < queuePriority s np ∨ cur.remainingSlice = 0 ∨
            cur.remainingTime = 0 then
          ProcessC.scheduler_context_switch s (some np)
        else s
    | some cp, none =>
      match lookupPid s cp with
      | none => s
      | some cur =>
        if cur.remainingTime = 0 then ProcessC.scheduler_context_switch s none else s

end ProcessC

/-- `process_create_with_time` (process.c): like `process_create` but with
required/remaining time, a priority-derived quantum, a zero entry point, and
a scheduling decision after insertion when the simulation is enabled. -/
def process_create_with_time (s : KState) (name : String) (priority requiredTime : Nat) :
    Option Nat × KState :=
  match kmalloc s.mem sizeof_process_t with
  | (none, m) => (none, { s with mem := m })
  | (some addr, m) =>
    let s := { s with mem := m }
    let (pcb, s) := process_init_pcb s addr name priority
    match stack_alloc s.mem pcb.pid with
    | (none, m2) => (none, { s with mem := kfree m2 addr })
    | (some top, m2) =>
      let s := { s with mem := m2 }
      let base := (stack_get_base s.mem pcb.pid).getD 0
      let pcb := { pcb with
        stackTop := top
        stackBase := base
        stackSize := STACK_SIZE
        requiredTime := requiredTime
        remainingTime := requiredTime
        timeQuantum := get_time_quantum priority
        remainingSlice := get_time_quantum priority
        context := { zeroContext with eip := 0, esp := top, ebp := top, eflags := 0x202 } }
      let s := process_add_to_table s pcb
      let s := process_add_to_ready_queue s pcb.pid
      let s := { s with totalCreated := s.totalCreated + 1 }
      let s := if s.simSchedEnabled then ProcessC.scheduler_schedule s else s
      (some pcb.pid, s)

namespace SchedulerC

/-- `scheduler_init` (scheduler.c). -/
def scheduler_init (s : KState) (policy : SchedPolicy) (defaultQuantum : Nat) : KState :=
  { s with
    policy := policy
    defaultQuantum := defaultQuantum
    minQuantum := 10
    maxQuantum := 1000
    agingThreshold := 100
    agingInterval := 50
    enableAging := true
    enablePreemption := true
    statSwitches := 0
    statTotalTicks := 0
    statIdleTicks := 0
    statAgingBoosts := 0
    statPreemptions := 0
    statYields := 0
    schedulerRunning := false
    currentTick := 0
    timeSliceRemaining := defaultQuantum }

/-- `select_round_robin` (scheduler.c). -/
def select_round_robin (s : KState) : Option Nat × KState :=
  process_dequeue_ready s

/-- `select_priority` (scheduler.c). -/
def select_priority (s : KState) : Option Nat × KState :=
  process_dequeue_ready s

/-- `select_priority_rr` (scheduler.c). -/
def select_priority_rr (s : KState) : Option Nat × KState :=
  process_dequeue_ready s

/-- `select_fcfs` (scheduler.c). -/
def select_fcfs (s : KState) : Option Nat × KState :=
  process_dequeue_ready s

/-- `scheduler_select_next_process` (scheduler.c). -/
def scheduler_select_next_process (s : KState) : Option Nat × KState :=
  match s.policy with
  | SchedPolicy.roundRobin => select_round_robin s
  | SchedPolicy.priority => select_priority s
  | SchedPolicy.priorityRR => select_priority_rr s
  | SchedPolicy.fcfs => select_fcfs s

/-- `scheduler_switch_context` (scheduler.c) saves and restores the physical
register file through `asm_save_context`/`asm_restore_context`; the hardware
registers are outside the kernel-state model, so the state effect is nil. -/
def scheduler_switch_context (s : KState) (_fromPid _toPid : Option Nat) : KState :=
  s

/-- `scheduler_schedule` (scheduler.c): park the current process back to
`Ready`, pick the next by policy, make it `Current` and refill the global
time slice from its quantum. -/
def scheduler_schedule (s : KState) : KState :=
  if !s.schedulerRunning then s
  else
    let prev := s.current
    let s :=
      match s.current with
      | some cp =>
        match lookupPid s cp with
        | some cur => if cur.state = PState.current then process_set_state s cp PState.ready else s
        | none => s
      | none => s
    match scheduler_select_next_process s with
    | (none, s) => s
    | (some np, s) =>
      let s := process_set_state s np PState.current
      let s :=
        match lookupPid s np with
        | some p => { s with timeSliceRemaining := p.timeQuantum }
        | none => { s with timeSliceRemaining := 0 }
      let s := { s with statSwitches := s.statSwitches + 1 }
      if prev ≠ some np then SchedulerC.scheduler_switch_context s prev (some np) else s

/-- `scheduler_start` (scheduler.c). -/
def scheduler_start (s : KState) : KState :=
  SchedulerC.scheduler_schedule { s with schedulerRunning := true }

/-- Body of the `for (pid = 1; pid <= count + 10; pid++)` loop of
`scheduler_check_aging`: skip unknown pids and non-`Ready` PCBs, increment
the age, and on reaching the threshold boost the priority, reset the age and
count the boost. -/
def agingBody (s : KState) (pid : Nat) : KState :=
  match lookupPid s pid with
  | none => s
  | some p =>
    if p.state ≠ PState.ready then s
    else
      let s := updatePid s pid (fun q => { q with age := q.age + 1 })
      match lookupPid s pid with
      | none => s
      | some p2 =>
        if s.agingThreshold ≤ p2.age then
          let s := process_boost_priority s pid
          let s := process_reset_age s pid
          { s with statAgingBoosts := s.statAgingBoosts + 1 }
        else s

/-- The aging loop itself: `g` counts the remaining iterations (the C loop
visits pids `1, …, count+10` for the value of `count` read at entry). -/
def agingGo : Nat → KState → Nat → KState
  | 0, s, _ => s
  | g + 1, s, pid => agingGo g (agingBody s pid) (pid + 1)

/-- `scheduler_check_aging` (scheduler.c): scan pids `1 .. process_count() +
10` — NOT the set of live pids — and age the `Ready` ones found there. -/
def scheduler_check_aging (s : KState) : KState :=
  if !s.enableAging then s
  else agingGo (process_count s + 10) s 1

/-- `scheduler_tick` (scheduler.c): account the tick; when idle, schedule;
otherwise charge the current process, terminate it when its required time is
reached, else run the time-slice/preemption logic and the periodic aging
check. -/
def scheduler_tick (s : KState) : KState :=
  if !s.schedulerRunning then s
  else
    let s := { s with currentTick := s.currentTick + 1, statTotalTicks := s.statTotalTicks + 1 }
    match s.current with
    | none =>
      let s := { s with statIdleTicks := s.statIdleTicks + 1 }
      SchedulerC.scheduler_schedule s
    | some cp =>
      match lookupPid s cp with
      | none => s
      | some _ =>
        let s := updatePid s cp (fun p => { p with cpuTime := p.cpuTime + 1 })
        match lookupPid s cp with
        | none => s
        | some cur =>
          if 0 < cur.requiredTime ∧ cur.requiredTime ≤ cur.cpuTime then
            let s := process_terminate s cp
            SchedulerC.scheduler_schedule s
          else
            let s :=
              if 0 < s.timeSliceRemaining then
                { s with timeSliceRemaining := s.timeSliceRemaining - 1 }
              else s
            if s.enablePreemption ∧ s.timeSliceRemaining = 0 then
              let s := { s with statPreemptions := s.statPreemptions + 1 }
              SchedulerC.scheduler_schedule s
            else
              if s.enableAging ∧ s.currentTick % s.agingInterval = 0 then
                SchedulerC.scheduler_check_aging s
              else s

end SchedulerC

/-! ## Helper lemmas about block tables -/

/-- Abbreviation for (always in-range) block-table indexing. -/
def blk (bs : List HeapBlock) (i : Nat) : HeapBlock :=
  bs.getD i dummyBlock

theorem blk_nil (i : Nat) : blk [] i = dummyBlock := by
  cases i <;> rfl

theorem blk_cons_zero (b : HeapBlock) (l : List HeapBlock) : blk (b :: l) 0 = b := rfl

theorem blk_cons_succ (b : HeapBlock) (l : List HeapBlock) (i : Nat) :
    blk (b :: l) (i + 1) = blk l i := rfl

theorem blk_append_left (pre l : List HeapBlock) (i : Nat) (h : i < pre.length) :
    blk (pre ++ l) i = blk pre i := by
  induction pre generalizing i with
  | nil => simp at h
  | cons x xs ih =>
    cases i with
    | zero => rfl
    | succ n =>
      simp only [List.cons_append, blk_cons_succ]
      exact ih n (by simpa using h)

theorem blk_append_length (pre : List HeapBlock) (b : HeapBlock) (l : List HeapBlock) :
    blk (pre ++ b :: l) pre.length = b := by
  induction pre with
  | nil => rfl
  | cons x xs ih => simpa [blk_cons_succ] using ih

theorem blk_append_right (pre l : List HeapBlock) (k : Nat) :
    blk (pre ++ l) (pre.length + k) = blk l k := by
  induction pre with
  | nil => simp
  | cons x xs ih =>
    have h : (x :: xs).length + k = (xs.length + k) + 1 := by simp [List.length_cons]; omega
    rw [h, List.cons_append, blk_cons_succ, ih]

theorem set_append_length (pre : List HeapBlock) (b b2 : HeapBlock) (l : List HeapBlock) :
    (pre ++ b :: l).set pre.length b2 = pre ++ b2 :: l := by
  induction pre with
  | nil => rfl
  | cons x xs ih =>
    show x :: (xs ++ b :: l).set xs.length b2 = x :: (xs ++ b2 :: l)
    rw [ih]

theorem eraseIdx_append_length_succ (pre : List HeapBlock) (b c : HeapBlock)
    (l : List HeapBlock) :
    (pre ++ b :: c :: l).eraseIdx (pre.length + 1) = pre ++ b :: l := by
  induction pre with
  | nil => rfl
  | cons x xs ih => simpa [List.eraseIdx] using ih

theorem length_append_cons (pre : List HeapBlock) (b : HeapBlock) (l : List HeapBlock) :
    (pre ++ b :: l).length = pre.length + 1 + l.length := by
  simp [List.length_append]; omega

theorem blk_set_eq (bs : List HeapBlock) (i : Nat) (b : HeapBlock) (h : i < bs.length) :
    blk (bs.set i b) i = b := by
  induction bs generalizing i with
  | nil => simp at h
  | cons x xs ih =>
    cases i with
    | zero => rfl
    | succ n => exact ih n (by simpa using h)

theorem blk_set_ne (bs : List HeapBlock) (i k : Nat) (b : HeapBlock) (h : i ≠ k) :
    blk (bs.set i b) k = blk bs k := by
  induction bs generalizing i k with
  | nil => cases i <;> rfl
  | cons x xs ih =>
    cases i with
    | zero =>
      cases k with
      | zero => exact absurd rfl h
      | succ m => rfl
    | succ n =>
      cases k with
      | zero => rfl
      | succ m => exact ih n m (by omega)

theorem blk_eraseIdx_lt (bs : List HeapBlock) (i k : Nat) (h : k < i) :
    blk (bs.eraseIdx i) k = blk bs k := by
  induction bs generalizing i k with
  | nil => cases i <;> rfl
  | cons x xs ih =>
    cases i with
    | zero => omega
    | succ n =>
      cases k with
      | zero => rfl
      | succ m => exact ih n m (by omega)

theorem blk_eraseIdx_ge (bs : List HeapBlock) (i k : Nat) (hi : i < bs.length) (h : i ≤ k) :
    blk (bs.eraseIdx i) k = blk bs (k + 1) := by
  induction bs generalizing i k with
  | nil => simp at hi
  | cons x xs ih =>
    cases i with
    | zero => rfl
    | succ n =>
      cases k with
      | zero => omega
      | succ m => exact ih n m (by simpa using hi) (by omega)

theorem blk_mem (bs : List HeapBlock) (i : Nat) (h : i < bs.length) : blk bs i ∈ bs := by
  induction bs generalizing i with
  | nil => simp at h
  | cons x xs ih =>
    cases i with
    | zero => exact List.mem_cons_self x xs
    | succ n => exact List.mem_cons_of_mem x (ih n (by simpa using h))

/-! ## Coalescing: chain layout predicates (spec §3 invariants (1)/(4)) -/

/-- Adjacent free pair: blocks `i` and `j` of the table are both free and
block `j` starts exactly at the end of block `i`. -/
def adjacentFreePair (bs : List HeapBlock) (i j : Nat) : Prop :=
  i < bs.length ∧ j < bs.length ∧
    (blk bs i).isFree = true ∧ (blk bs j).isFree = true ∧
    (blk bs j).address = (blk bs i).address + (blk bs i).size

instance (bs : List HeapBlock) (i j : Nat) : Decidable (adjacentFreePair bs i j) := by
  unfold adjacentFreePair; infer_instance

/-- Index form of the layout invariant: every block begins exactly where its
predecessor ends. -/
def Chained (bs : List HeapBlock) : Prop :=
  ∀ k, k + 1 < bs.length →
    (blk bs (k + 1)).address = (blk bs k).address + (blk bs k).size

/-- All blocks have a positive size. -/
def PosSizes (bs : List HeapBlock) : Prop :=
  ∀ b ∈ bs, 0 < b.size

/-- Structural form of `Chained`, relative to the address where the table
must start. -/
def ChainedFrom : Nat → List HeapBlock → Prop
  | _, [] => True
  | a, b :: l => b.address = a ∧ ChainedFrom (b.address + b.size) l

/-- End address of a chained run that starts at `a`. -/
def chainEnd : Nat → List HeapBlock → Nat
  | a, [] => a
  | _, b :: l => chainEnd (b.address + b.size) l

theorem chainedFrom_append (a : Nat) (l1 l2 : List HeapBlock) :
    ChainedFrom a (l1 ++ l2) ↔ ChainedFrom a l1 ∧ ChainedFrom (chainEnd a l1) l2 := by
  induction l1 generalizing a with
  | nil => simp [ChainedFrom, chainEnd]
  | cons b t ih =>
    constructor
    · rintro ⟨hb, hrest⟩
      have hrest2 : ChainedFrom (b.address + b.size) (t ++ l2) := hrest
      rw [ih] at hrest2
      exact ⟨⟨hb, hrest2.1⟩, hrest2.2⟩
    · rintro ⟨⟨hb, ht⟩, hl2⟩
      exact ⟨hb, (ih _).2 ⟨ht, hl2⟩⟩

theorem chained_tail (b : HeapBlock) (l : List HeapBlock) (h : Chained (b :: l)) :
    Chained l := by
  intro k hk
  have := h (k + 1) (by simpa using Nat.succ_lt_succ hk)
  simpa [blk_cons_succ] using this

theorem chainedFrom_head (b : HeapBlock) (l : List HeapBlock) (h : Chained (b :: l)) :
    ChainedFrom b.address (b :: l) := by
  induction l generalizing b with
  | nil => exact ⟨rfl, trivial⟩
  | cons c t ih =>
    refine ⟨rfl, ?_⟩
    have hc : c.address = b.address + b.size := by
      have := h 0 (by simp)
      simpa [blk_cons_zero, blk_cons_succ] using this
    have := ih c (chained_tail b (c :: t) h)
    rw [hc] at this
    exact this

theorem chainedFrom_blk (a : Nat) (bs : List HeapBlock) (h : ChainedFrom a bs) :
    Chained bs := by
  induction bs generalizing a with
  | nil => intro k hk; simp at hk
  | cons b l ih =>
    intro k hk
    obtain ⟨-, hl⟩ := h
    cases k with
    | zero =>
      cases l with
      | nil => simp at hk
      | cons c t =>
        obtain ⟨hc, -⟩ := hl
        simpa [blk_cons_zero, blk_cons_succ] using hc
    | succ n =>
      have := ih (b.address + b.size) hl n (by simpa using hk)
      simpa [blk_cons_succ] using this

/-- Under the chain layout with positive sizes, addresses grow by at least
one unit per block: `end(k) + d ≤ addr(k + d + 1)`. -/
theorem chained_addr_le (bs : List HeapBlock) (hc : Chained bs) (hp : PosSizes bs) :
    ∀ d k, k + d + 1 < bs.length →
      (blk bs k).address + (blk bs k).size + d ≤ (blk bs (k + d + 1)).address := by
  intro d
  induction d with
  | zero =>
    intro k hk
    simp only [Nat.add_zero]
    have := hc k (by omega)
    omega
  | succ n ih =>
    intro k hk
    have h1 := ih k (by omega)
    have h2 := hc (k + n + 1) (by omega)
    have h3 : 0 < (blk bs (k + n + 1)).size :=
      hp _ (blk_mem bs (k + n + 1) (by omega))
    have : k + (n + 1) + 1 = (k + n + 1) + 1 := by omega
    rw [this, h2]
    omega

theorem mergeInner_scan (g : Nat) (bs : List HeapBlock) (i : Nat) :
    ∀ j, (∀ k, j ≤ k → k < bs.length →
        (blk bs k).address ≠ (blk bs i).address + (blk bs i).size) →
      mergeInnerGo g bs i j = bs := by
  induction g with
  | zero => intro j _; rfl
  | succ n ih =>
    intro j h
    by_cases hj : j < bs.length
    · have hne := h j le_rfl hj
      have hcond : ((bs.getD j dummyBlock).isFree &&
          ((bs.getD j dummyBlock).address ==
            (bs.getD i dummyBlock).address + (bs.getD i dummyBlock).size)) = false := by
        have hne2 : ((bs.getD j dummyBlock).address ==
            (bs.getD i dummyBlock).address + (bs.getD i dummyBlock).size) = false :=
          beq_eq_false_iff_ne.mpr hne
        rw [hne2, Bool.and_false]
      simp only [mergeInnerGo, if_pos hj, hcond, Bool.false_eq_true, if_false]
      exact ih (j + 1) (fun k hk hk2 => h k (by omega) hk2)
    · simp only [mergeInnerGo, if_neg hj]

theorem mergeInner_phase (g : Nat) (a : Nat) (pre : List HeapBlock) :
    ∀ (bi : HeapBlock) (suf : List HeapBlock),
      bi.isFree = true →
      ChainedFrom a (pre ++ bi :: suf) →
      PosSizes (pre ++ bi :: suf) →
      suf.length ≤ g →
      ∃ bi2 suf2,
        mergeInnerGo g (pre ++ bi :: suf) pre.length (pre.length + 1) = pre ++ bi2 :: suf2 ∧
        bi2.address = bi.address ∧ bi2.isFree = true ∧
        ChainedFrom a (pre ++ bi2 :: suf2) ∧ PosSizes (pre ++ bi2 :: suf2) ∧
        suf2 <:+ suf ∧
        ∀ c, suf2.head? = some c → c.isFree = false := by
  induction g with
  | zero =>
    intro bi suf hfree hch hp hg
    have hsuf : suf = [] := List.eq_nil_of_length_eq_zero (Nat.le_zero.mp hg)
    subst hsuf
    exact ⟨bi, [], rfl, rfl, hfree, hch, hp, List.nil_suffix, by intro c hc; simp at hc⟩
  | succ n ih =>
    intro bi suf hfree hch hp hg
    cases suf with
    | nil =>
      have hlen : (pre ++ [bi]).length = pre.length + 1 := by
        simpa using length_append_cons pre bi []
      have hguard : ¬(pre.length + 1 < (pre ++ [bi]).length) := by omega
      refine ⟨bi, [], ?_, rfl, hfree, hch, hp, List.nil_suffix, by intro c hc; simp at hc⟩
      simp only [mergeInnerGo, if_neg hguard]
    | cons bj rest =>
      have hlen : (pre ++ bi :: bj :: rest).length = pre.length + 1 + (rest.length + 1) :=
        length_append_cons pre bi (bj :: rest)
      have hguard : pre.length + 1 < (pre ++ bi :: bj :: rest).length := by omega
      have hbi : (pre ++ bi :: bj :: rest).getD pre.length dummyBlock = bi :=
        blk_append_length pre bi (bj :: rest)
      have hbj : (pre ++ bi :: bj :: rest).getD (pre.length + 1) dummyBlock = bj :=
        blk_append_right pre (bi :: bj :: rest) 1
      obtain ⟨hchpre, hbiaddr, hbjaddr, hchrest⟩ :=
        (chainedFrom_append a pre (bi :: bj :: rest)).mp hch
      cases hbjfree : bj.isFree with
      | true =>
        -- the merge branch fires: bj is free and (by the chain layout) adjacent
        have hstep :
            mergeInnerGo (n + 1) (pre ++ bi :: bj :: rest) pre.length (pre.length + 1) =
              mergeInnerGo n (pre ++ { bi with size := bi.size + bj.size } :: rest)
                pre.length (pre.length + 1) := by
          simp only [mergeInnerGo, if_pos hguard, hbi, hbj, hbjaddr, hbjfree]
          rw [set_append_length pre bi { bi with size := bi.size + bj.size } (bj :: rest),
            eraseIdx_append_length_succ pre { bi with size := bi.size + bj.size } bj rest]
          simp
        have hfree2 : ({ bi with size := bi.size + bj.size } : HeapBlock).isFree = true := hfree
        have hch3 : ChainedFrom a (pre ++ { bi with size := bi.size + bj.size } :: rest) := by
          refine (chainedFrom_append a pre _).mpr ⟨hchpre, hbiaddr, ?_⟩
          have hend : bi.address + (bi.size + bj.size) = bj.address + bj.size := by
            rw [hbjaddr]; omega
          show ChainedFrom (bi.address + (bi.size + bj.size)) rest
          rw [hend]; exact hchrest
        have hp3 : PosSizes (pre ++ { bi with size := bi.size + bj.size } :: rest) := by
          intro b hb
          rcases List.mem_append.mp hb with hb1 | hb2
          · exact hp b (List.mem_append_left _ hb1)
          · rcases List.mem_cons.mp hb2 with hbeq | hb3
            · have hbjpos : 0 < bj.size := hp bj (by simp)
              subst hbeq; simp; omega
            · exact hp b (by simp [hb3])
        have hg2 : rest.length ≤ n := by
          have := hg; simp [List.length_cons] at this; omega
        obtain ⟨bi3, suf3, heq3, haddr3, hfree3, hch4, hp4, hsuffix3, hhead3⟩ :=
          ih { bi with size := bi.size + bj.size } rest hfree2 hch3 hp3 hg2
        refine ⟨bi3, suf3, ?_, ?_, hfree3, hch4, hp4, ?_, hhead3⟩
        · rw [hstep, heq3]
        · exact haddr3
        · exact hsuffix3.trans (List.suffix_cons bj rest)
      | false =>
        -- bj is allocated: the loop scans the rest of the table without merging
        have hcond : (((pre ++ bi :: bj :: rest).getD (pre.length + 1) dummyBlock).isFree &&
            (((pre ++ bi :: bj :: rest).getD (pre.length + 1) dummyBlock).address ==
              ((pre ++ bi :: bj :: rest).getD pre.length dummyBlock).address +
                ((pre ++ bi :: bj :: rest).getD pre.length dummyBlock).size)) = false := by
          rw [hbj, hbjfree, Bool.false_and]
        have hstep :
            mergeInnerGo (n + 1) (pre ++ bi :: bj :: rest) pre.length (pre.length + 1) =
              mergeInnerGo n (pre ++ bi :: bj :: rest) pre.length (pre.length + 2) := by
          simp only [mergeInnerGo, if_pos hguard, hcond, Bool.false_eq_true, if_false]
        have hchain_idx : Chained (pre ++ bi :: bj :: rest) := chainedFrom_blk a _ hch
        have hscan : mergeInnerGo n (pre ++ bi :: bj :: rest) pre.length (pre.length + 2) =
            pre ++ bi :: bj :: rest := by
          apply mergeInner_scan
          intro k hk hklen
          have hmono := chained_addr_le _ hchain_idx hp (k - pre.length - 2 + 1) pre.length
            (by omega)
          have hidx : pre.length + (k - pre.length - 2 + 1) + 1 = k := by omega
          rw [hidx] at hmono
          have hbik : blk (pre ++ bi :: bj :: rest) pre.length = bi := hbi
          rw [hbik] at hmono ⊢
          omega
        refine ⟨bi, bj :: rest, ?_, rfl, hfree, hch, hp, List.suffix_refl _, ?_⟩
        · rw [hstep, hscan]
        · intro c hc
          simp only [List.head?_cons, Option.some.injEq] at hc
          rw [← hc]; exact hbjfree

theorem blk_decompose (bs : List HeapBlock) (i : Nat) (h : i < bs.length) :
    bs = bs.take i ++ blk bs i :: bs.drop (i + 1) := by
  conv_lhs => rw [← List.take_append_drop i bs]
  rw [List.drop_eq_getElem_cons h]
  congr 2
  rw [blk, List.getD_eq_getElem bs dummyBlock h]

theorem mergeOuter_loop (g : Nat) :
    ∀ (bs : List HeapBlock) (i : Nat) (a : Nat),
      ChainedFrom a bs → PosSizes bs →
      bs.length ≤ g + i →
      (∀ k, k + 1 ≤ i → k + 1 < bs.length →
        ¬((blk bs k).isFree = true ∧ (blk bs (k + 1)).isFree = true)) →
      ChainedFrom a (mergeOuterGo g bs i) ∧ PosSizes (mergeOuterGo g bs i) ∧
        ∀ k, k + 1 < (mergeOuterGo g bs i).length →
          ¬((blk (mergeOuterGo g bs i) k).isFree = true ∧
            (blk (mergeOuterGo g bs i) (k + 1)).isFree = true) := by
  induction g with
  | zero =>
    intro bs i a hch hp hg hprev
    refine ⟨hch, hp, fun k hk => ?_⟩
    have hk2 : k + 1 < bs.length := hk
    exact hprev k (by omega) hk2
  | succ n ih =>
    intro bs i a hch hp hg hprev
    by_cases hguard : i + 1 < bs.length
    case neg =>
      have hdone : mergeOuterGo (n + 1) bs i = bs := by
        simp only [mergeOuterGo, if_neg hguard]
      rw [hdone]
      exact ⟨hch, hp, fun k hk => hprev k (by omega) hk⟩
    case pos =>
      have hdec := blk_decompose bs i (by omega)
      set pre := bs.take i with hpredef
      set bi := blk bs i with hbidef
      set suf := bs.drop (i + 1) with hsufdef
      have hlentake : pre.length = i := by
        simp [hpredef, List.length_take]; omega
      have hlenbs : bs.length = i + 1 + suf.length := by
        conv_lhs => rw [hdec]
        rw [length_append_cons, hlentake]
      have hgetD : bs.getD i dummyBlock = bi := rfl
      by_cases hfree : bi.isFree = true
      case pos =>
        have hchain2 : ChainedFrom a (pre ++ bi :: suf) := by rw [← hdec]; exact hch
        have hpos2 : PosSizes (pre ++ bi :: suf) := by rw [← hdec]; exact hp
        obtain ⟨bi2, suf2, heq, haddr2, hfree2, hch3, hp3, hsuffix, hhead⟩ :=
          mergeInner_phase (bs.length - (i + 1)) a pre bi suf hfree hchain2 hpos2 (by omega)
        have hinner : mergeInnerGo (bs.length - (i + 1)) bs i (i + 1) = pre ++ bi2 :: suf2 := by
          rw [show bs.length - (i + 1) = suf.length from by omega]
          rw [show (mergeInnerGo suf.length bs i (i + 1) : List HeapBlock) =
            mergeInnerGo suf.length (pre ++ bi :: suf) pre.length (pre.length + 1) from by
              rw [← hdec, hlentake]]
          rw [← heq]
          congr 1
          omega
        have hstep : mergeOuterGo (n + 1) bs i = mergeOuterGo n (pre ++ bi2 :: suf2) (i + 1) := by
          simp only [mergeOuterGo, if_pos hguard, hgetD, hfree, if_true, hinner]
        have hlen2 : (pre ++ bi2 :: suf2).length = i + 1 + suf2.length := by
          rw [length_append_cons, hlentake]
        have hg2 : (pre ++ bi2 :: suf2).length ≤ n + (i + 1) := by
          have := hsuffix.length_le
          omega
        have hprev2 : ∀ k, k + 1 ≤ i + 1 → k + 1 < (pre ++ bi2 :: suf2).length →
            ¬((blk (pre ++ bi2 :: suf2) k).isFree = true ∧
              (blk (pre ++ bi2 :: suf2) (k + 1)).isFree = true) := by
          intro k hk hklen hcontra
          obtain ⟨h1, h2⟩ := hcontra
          rcases Nat.lt_or_ge (k + 1) (i + 1) with hki | hki
          · -- both positions lie at indices ≤ i: identical freeness to bs
            have hk1 : k < pre.length := by omega
            have hblkk : blk (pre ++ bi2 :: suf2) k = blk bs k := by
              rw [blk_append_left _ _ _ hk1, hdec, blk_append_left _ _ _ hk1]
            rcases Nat.lt_or_ge (k + 1) i with hk2 | hk2
            · have hk2' : k + 1 < pre.length := by omega
              have hblkk1 : blk (pre ++ bi2 :: suf2) (k + 1) = blk bs (k + 1) := by
                rw [blk_append_left _ _ _ hk2', hdec, blk_append_left _ _ _ hk2']
              exact hprev k (by omega) (by omega) ⟨hblkk ▸ h1, hblkk1 ▸ h2⟩
            · -- k + 1 = i: position i holds bi2 in the new list, bi in bs; both free
              have hk2' : k + 1 = i := by omega
              have hblkk1 : blk (pre ++ bi2 :: suf2) (k + 1) = bi2 := by
                rw [hk2', ← hlentake, blk_append_length]
              have hbsk1 : blk bs (k + 1) = bi := by rw [hk2']
              exact hprev k (by omega) (by omega)
                ⟨hblkk ▸ h1, by rw [hbsk1]; exact hfree⟩
          · -- k = i: the inner loop guarantees position i+1 is not free
            have hk' : k = i := by omega
            have hsuf2ne : suf2 ≠ [] := by
              intro hnil
              rw [hlen2] at hklen
              rw [hnil] at hklen
              simp at hklen
              omega
            obtain ⟨c, t, hct⟩ := List.exists_cons_of_ne_nil hsuf2ne
            have hblkk1 : blk (pre ++ bi2 :: suf2) (k + 1) = c := by
              rw [hk', ← hlentake, blk_append_right pre (bi2 :: suf2) 1, hct]
              rfl
            have hcfree := hhead c (by rw [hct]; rfl)
            rw [hblkk1] at h2
            rw [hcfree] at h2
            exact absurd h2 (by decide)
        have hres := ih (pre ++ bi2 :: suf2) (i + 1) a hch3 hp3 hg2 hprev2
        rw [hstep]
        exact hres
      case neg =>
        have hfree0 : bi.isFree = false := by
          simpa using hfree
        have hstep : mergeOuterGo (n + 1) bs i = mergeOuterGo n bs (i + 1) := by
          simp only [mergeOuterGo, if_pos hguard, hgetD, hfree0, Bool.false_eq_true, if_false]
        have hprev2 : ∀ k, k + 1 ≤ i + 1 → k + 1 < bs.length →
            ¬((blk bs k).isFree = true ∧ (blk bs (k + 1)).isFree = true) := by
          intro k hk hklen hcontra
          rcases Nat.lt_or_ge k i with hki | hki
          · exact hprev k (by omega) hklen hcontra
          · have hki2 : k = i := by omega
            rw [hki2] at hcontra
            have hcf : bi.isFree = true := hcontra.1
            rw [hfree0] at hcf
            exact absurd hcf (by decide)
        have hres := ih bs (i + 1) a hch hp (by omega) hprev2
        rw [hstep]
        exact hres

/-- C2 (amended): whenever the block table tiles the arena in index order
(each block begins exactly where its predecessor ends — spec §3 invariants
(1)/(4)) and all blocks have positive size, `merge_free_blocks` leaves no two
adjacent free blocks.  (The unsorted tables that `split_block` can create are
exactly where the original claim fails, see `C2_counterexample`.) -/
theorem C2_merge_exhaustive_when_chained (bs : List HeapBlock)
    (hch : Chained bs) (hp : PosSizes bs) :
    ∀ i j, ¬ adjacentFreePair (merge_free_blocks bs) i j := by
  cases bs with
  | nil =>
    intro i j h
    obtain ⟨hi, -⟩ := h
    have : (merge_free_blocks ([] : List HeapBlock)).length = 0 := rfl
    omega
  | cons b l =>
    have hcf : ChainedFrom b.address (b :: l) := chainedFrom_head b l hch
    obtain ⟨hch2, hp2, hcons⟩ :=
      mergeOuter_loop (b :: l).length (b :: l) 0 b.address hcf hp (by omega)
        (fun k hk _ => by omega)
    intro i j hadj
    obtain ⟨hi, hj, hfi, hfj, haddr⟩ := hadj
    have hchidx : Chained (merge_free_blocks (b :: l)) := chainedFrom_blk _ _ hch2
    have hi' : i < (mergeOuterGo (b :: l).length (b :: l) 0).length := hi
    have hj' : j < (mergeOuterGo (b :: l).length (b :: l) 0).length := hj
    rcases Nat.lt_trichotomy j (i + 1) with hji | hji
    · rcases Nat.lt_or_ge j i with hji2 | hji2
      · -- j < i: block j would sit strictly below block i yet start at its end
        have hmono := chained_addr_le _ hchidx hp2 (i - j - 1) j (by omega)
        have hposj : 0 < (blk (merge_free_blocks (b :: l)) j).size :=
          hp2 _ (blk_mem _ j hj)
        have hposi : 0 < (blk (merge_free_blocks (b :: l)) i).size :=
          hp2 _ (blk_mem _ i hi)
        rw [show j + (i - j - 1) + 1 = i from by omega] at hmono
        omega
      · -- j = i: a block cannot start at its own end unless its size is zero
        have hji3 : j = i := by omega
        rw [hji3] at haddr
        have hposi : 0 < (blk (merge_free_blocks (b :: l)) i).size :=
          hp2 _ (blk_mem _ i hi)
        omega
    · rcases Nat.lt_or_ge (i + 1) j with hji2 | hji2
      · -- j ≥ i + 2: strictly monotone addresses leave a gap of at least one
        have hmono := chained_addr_le _ hchidx hp2 (j - i - 2 + 1) i (by omega)
        rw [show i + (j - i - 2 + 1) + 1 = j from by omega] at hmono
        omega
      · -- j = i + 1: the outer loop postcondition forbids consecutive free blocks
        have hji3 : j = i + 1 := by omega
        rw [hji3] at hfj
        exact hcons i (by omega) ⟨hfi, hfj⟩

/-! ## C2 counterexample: a reachable heap with two adjacent free blocks -/

/-- Virgin heap after `kmalloc(100)` (block A at `0x200000`). -/
def c2_s1 : MemState := (kmalloc memory_init 100).2

/-- … then `kmalloc(100)` (block B at `0x200064`). -/
def c2_s2 : MemState := (kmalloc c2_s1 100).2

/-- … then `kfree(A)`. -/
def c2_s3 : MemState := kfree c2_s2 0x200000

/-- … then `kmalloc(40)`: first fit reuses the first 40 bytes of A's old
block and appends the 60-byte free remainder (address `0x200028`) at the END
of the block table, after the high tail block — the table is no longer in
address order. -/
def c2_s4 : MemState := (kmalloc c2_s3 40).2

/-- … then `kfree(B)`: B coalesces with the tail block, but the free 60-byte
remainder at `0x200028` sits after the merged block in table order, where the
merge loops never compare it forward, so two adjacent free blocks survive a
public operation. -/
def c2_s5 : MemState := kfree c2_s4 0x200064

/-- C2 counterexample: after the five public allocator calls above, block 2
(60 bytes at `0x200028`, free) and block 1 (at `0x200064 = 0x200028 + 60`,
free) of the block table are adjacent and both free. -/
theorem C2_counterexample : adjacentFreePair c2_s5.heapBlocks 2 1 := by decide

/-- Concrete chained two-block table used to instantiate the amended C2
theorem. -/
def c2w : List HeapBlock := [⟨0x200000, 4, true⟩, ⟨0x200004, 8, false⟩]

theorem C2_witness :
    Chained c2w ∧ PosSizes c2w ∧
      ∀ i j, ¬ adjacentFreePair (merge_free_blocks c2w) i j := by
  have hch : Chained c2w := by
    intro k hk
    have hk2 : k + 1 < 2 := hk
    have hk0 : k = 0 := by omega
    subst hk0
    decide
  have hp : PosSizes c2w := by
    intro b hb
    rcases List.mem_cons.mp hb with h | h
    · subst h; decide
    · rcases List.mem_cons.mp h with h2 | h2
      · subst h2; decide
      · simp at h2
  exact ⟨hch, hp, C2_merge_exhaustive_when_chained c2w hch hp⟩

/-! ## kmalloc contract (C7) -/

/-- First-match specification of `List.findIdx?`: the returned index is in
range, satisfies the predicate, and no earlier index does. -/
theorem findIdx?_getD {α : Type} (p : α → Bool) (l : List α) (i : Nat) (d : α)
    (h : l.findIdx? p = some i) :
    i < l.length ∧ p (l.getD i d) = true ∧ ∀ k, k < i → p (l.getD k d) = false := by
  induction l generalizing i with
  | nil => simp [List.findIdx?] at h
  | cons x xs ih =>
    rw [List.findIdx?_cons] at h
    by_cases hx : p x
    · rw [if_pos hx] at h
      have hi0 : i = 0 := by simpa using h.symm
      subst hi0
      exact ⟨by simp, by simpa using hx, fun k hk => by omega⟩
    · rw [if_neg hx, List.findIdx?_succ] at h
      obtain ⟨i2, hi2, hieq⟩ := Option.map_eq_some'.mp h
      subst hieq
      obtain ⟨hlen, hp2, hprev⟩ := ih i2 hi2
      refine ⟨by simpa using Nat.succ_lt_succ hlen, by simpa using hp2, ?_⟩
      intro k hk
      cases k with
      | zero => simpa using hx
      | succ m => exact hprev m (by omega)

/-- A free block of at least `sz` bytes exists in the table. -/
def hasFit (bs : List HeapBlock) (sz : Nat) : Prop :=
  ∃ k, k < bs.length ∧ (blk bs k).isFree = true ∧ sz ≤ (blk bs k).size

theorem find_free_block_none_iff (bs : List HeapBlock) (sz : Nat) :
    find_free_block bs sz = none ↔ ¬ hasFit bs sz := by
  unfold find_free_block
  rw [List.findIdx?_eq_none_iff]
  constructor
  · rintro hall ⟨k, hk, hfree, hsz⟩
    have := hall (blk bs k) (blk_mem bs k hk)
    rw [hfree] at this
    simp at this
    omega
  · intro hno b hb
    by_cases hbf : b.isFree = true
    · by_cases hbs : sz ≤ b.size
      · exfalso
        apply hno
        obtain ⟨k, hklen, hkval⟩ := List.mem_iff_getElem.mp hb
        refine ⟨k, hklen, ?_, ?_⟩
        · rw [blk, List.getD_eq_getElem bs dummyBlock hklen, hkval]; exact hbf
        · rw [blk, List.getD_eq_getElem bs dummyBlock hklen, hkval]; exact hbs
      · simp [hbf, hbs]
    · simp at hbf
      simp [hbf]

theorem find_free_block_some (bs : List HeapBlock) (sz i : Nat)
    (h : find_free_block bs sz = some i) :
    i < bs.length ∧ (blk bs i).isFree = true ∧ sz ≤ (blk bs i).size := by
  obtain ⟨hlen, hp2, -⟩ := findIdx?_getD _ bs i dummyBlock h
  refine ⟨hlen, ?_, ?_⟩
  · have := hp2
    simp only [Bool.and_eq_true, decide_eq_true_eq] at this
    exact this.1
  · have := hp2
    simp only [Bool.and_eq_true, decide_eq_true_eq] at this
    exact this.2

/-- One inner merge pass cannot destroy the existence of a free fit (the
absorbing block is free and only grows). -/
theorem mergeInnerGo_hasFit (sz : Nat) (g : Nat) :
    ∀ (bs : List HeapBlock) (i j : Nat),
      i < j → (blk bs i).isFree = true →
      hasFit bs sz → hasFit (mergeInnerGo g bs i j) sz := by
  induction g with
  | zero => intro bs i j _ _ hfit; exact hfit
  | succ n ih =>
    intro bs i j hij hfreei hfit
    by_cases hj : j < bs.length
    · set bi := bs.getD i dummyBlock with hbidef
      set bj := bs.getD j dummyBlock with hbjdef
      by_cases hcond : (bj.isFree && (bj.address == bi.address + bi.size)) = true
      · have hstep : mergeInnerGo (n + 1) bs i j =
            mergeInnerGo n ((bs.set i { bi with size := bi.size + bj.size }).eraseIdx j) i j := by
          simp only [mergeInnerGo, if_pos hj, hcond, if_true]
        rw [hstep]
        set bs2 := (bs.set i { bi with size := bi.size + bj.size }).eraseIdx j with hbs2
        have hilen : i < bs.length := by omega
        have hlen2 : bs2.length = bs.length - 1 := by
          rw [hbs2, List.length_eraseIdx_of_lt (by simpa using hj)]
          simp
        have hblki2 : blk bs2 i = { bi with size := bi.size + bj.size } := by
          rw [hbs2, blk_eraseIdx_lt _ _ _ hij, blk_set_eq _ _ _ hilen]
        have hfree2 : (blk bs2 i).isFree = true := by
          rw [hblki2]; exact hfreei
        apply ih bs2 i j hij hfree2
        obtain ⟨k, hk, hkfree, hksz⟩ := hfit
        by_cases hki : k = i
        · refine ⟨i, by omega, hfree2, ?_⟩
          rw [hblki2]
          subst hki
          simp only []
          have : (blk bs k).size ≤ bi.size := le_of_eq (by rw [hbidef]; rfl)
          omega
        · by_cases hkj : k = j
          · refine ⟨i, by omega, hfree2, ?_⟩
            rw [hblki2]
            have hjsz : sz ≤ bj.size := by rw [hbjdef]; subst hkj; exact hksz
            simp only []
            omega
          · rcases Nat.lt_or_ge k j with hkj2 | hkj2
            · refine ⟨k, by omega, ?_, ?_⟩
              · rw [hbs2, blk_eraseIdx_lt _ _ _ hkj2, blk_set_ne _ _ _ _ (Ne.symm hki)]
                exact hkfree
              · rw [hbs2, blk_eraseIdx_lt _ _ _ hkj2, blk_set_ne _ _ _ _ (Ne.symm hki)]
                exact hksz
            · have hkj3 : j ≤ k - 1 := by omega
              have hk1 : k - 1 + 1 = k := by omega
              refine ⟨k - 1, by omega, ?_, ?_⟩
              · rw [hbs2, blk_eraseIdx_ge _ _ _ (by simpa using hj) hkj3, hk1,
                  blk_set_ne _ _ _ _ (by omega)]
                exact hkfree
              · rw [hbs2, blk_eraseIdx_ge _ _ _ (by simpa using hj) hkj3, hk1,
                  blk_set_ne _ _ _ _ (by omega)]
                exact hksz
      · have hstep : mergeInnerGo (n + 1) bs i j = mergeInnerGo n bs i (j + 1) := by
          simp only [mergeInnerGo, if_pos hj]
          rw [if_neg hcond]
        rw [hstep]
        exact ih bs i (j + 1) (by omega) hfreei hfit
    · have hstep : mergeInnerGo (n + 1) bs i j = bs := by
        simp only [mergeInnerGo, if_neg hj]
      rw [hstep]
      exact hfit

/-- The outer merge loop preserves the existence of a free fit. -/
theorem mergeOuterGo_hasFit (sz : Nat) (g : Nat) :
    ∀ (bs : List HeapBlock) (i : Nat), hasFit bs sz → hasFit (mergeOuterGo g bs i) sz := by
  induction g with
  | zero => intro bs i hfit; exact hfit
  | succ n ih =>
    intro bs i hfit
    by_cases hguard : i + 1 < bs.length
    · by_cases hfree : (bs.getD i dummyBlock).isFree = true
      · have hstep : mergeOuterGo (n + 1) bs i =
            mergeOuterGo n (mergeInnerGo (bs.length - (i + 1)) bs i (i + 1)) (i + 1) := by
          simp only [mergeOuterGo, if_pos hguard, hfree, if_true]
        rw [hstep]
        exact ih _ (i + 1) (mergeInnerGo_hasFit sz _ bs i (i + 1) (by omega) hfree hfit)
      · have hfree0 : (bs.getD i dummyBlock).isFree = false := by simpa using hfree
        have hstep : mergeOuterGo (n + 1) bs i = mergeOuterGo n bs (i + 1) := by
          simp only [mergeOuterGo, if_pos hguard, hfree0, Bool.false_eq_true, if_false]
        rw [hstep]
        exact ih bs (i + 1) hfit
    · have hstep : mergeOuterGo (n + 1) bs i = bs := by
        simp only [mergeOuterGo, if_neg hguard]
      rw [hstep]
      exact hfit

theorem merge_free_blocks_hasFit (sz : Nat) (bs : List HeapBlock) (h : hasFit bs sz) :
    hasFit (merge_free_blocks bs) sz :=
  mergeOuterGo_hasFit sz bs.length bs 0 h

theorem split_block_spec (bs : List HeapBlock) (i sz : Nat) (hi : i < bs.length) :
    i < (split_block bs i sz).length ∧
    (blk (split_block bs i sz) i).address = (blk bs i).address ∧
    ((blk bs i).size < sz + 33 → (blk (split_block bs i sz) i).size = (blk bs i).size) ∧
    (sz ≤ (blk bs i).size → sz ≤ (blk (split_block bs i sz) i).size) ∧
    (blk (split_block bs i sz) i).isFree = (blk bs i).isFree := by
  unfold split_block
  by_cases hc : sz + 32 < (bs.getD i dummyBlock).size ∧ bs.length < MAX_BLOCKS
  · rw [if_pos hc]
    have hseti : i < (bs.set i { bs.getD i dummyBlock with size := sz }).length := by
      simpa using hi
    have hblki : blk ((bs.set i { bs.getD i dummyBlock with size := sz }) ++
        [⟨(bs.getD i dummyBlock).address + sz, (bs.getD i dummyBlock).size - sz, true⟩]) i =
        { bs.getD i dummyBlock with size := sz } := by
      rw [blk_append_left _ _ _ hseti, blk_set_eq _ _ _ hi]
    rw [hblki]
    refine ⟨by simp; omega, rfl, ?_, ?_, rfl⟩
    · intro h
      exfalso
      have : (blk bs i).size = (bs.getD i dummyBlock).size := rfl
      omega
    · intro _; simp
  · rw [if_neg hc]
    exact ⟨hi, rfl, fun _ => rfl, fun h => h, rfl⟩

theorem kmalloc_commit_spec (s : MemState) (bs : List HeapBlock) (i sz : Nat)
    (hi : i < bs.length) (hsz : sz ≤ (blk bs i).size) :
    (kmalloc_commit s bs i sz).1 = some (blk bs i).address ∧
    (∃ k, k < (kmalloc_commit s bs i sz).2.heapBlocks.length ∧
      (blk (kmalloc_commit s bs i sz).2.heapBlocks k).address = (blk bs i).address ∧
      sz ≤ (blk (kmalloc_commit s bs i sz).2.heapBlocks k).size ∧
      (blk (kmalloc_commit s bs i sz).2.heapBlocks k).isFree = false) := by
  obtain ⟨hlen2, haddr2, -, hsz2, -⟩ := split_block_spec bs i sz hi
  have hsz3 := hsz2 hsz
  unfold kmalloc_commit
  simp only []
  constructor
  · have : (split_block bs i sz).getD i dummyBlock = blk (split_block bs i sz) i := rfl
    rw [this, haddr2]
  · refine ⟨i, ?_, ?_, ?_, ?_⟩
    · simpa using hlen2
    · rw [blk_set_eq _ _ _ hlen2]; exact haddr2
    · rw [blk_set_eq _ _ _ hlen2]; exact hsz3
    · rw [blk_set_eq _ _ _ hlen2]

/-- C7: the 4-byte rounding in `kmalloc` runs on the 32-bit `size_t`
(`size = (size + 3) & ~3`, memory.c:136), so a request of 0xFFFFFFFF bytes —
far beyond the 30MB heap — rounds to 0 instead of up: `find_free_block(0)`
matches the first free block, `split_block` truncates it to zero bytes, and
`kmalloc` returns a non-null pointer to a zero-size block (and leaves a
second block record at the same address), where the claimed contract
requires a null return.  Evaluated on the virgin heap. -/
theorem C7_kmalloc_wrap_zero_block :
    roundUp4 0xFFFFFFFF = 0 ∧
    HEAP_SIZE < 0xFFFFFFFF ∧
    (kmalloc memory_init 0xFFFFFFFF).1 = some 0x200000 ∧
    (kmalloc memory_init 0xFFFFFFFF).2.heapBlocks =
      [⟨0x200000, 0, false⟩, ⟨0x200000, HEAP_SIZE, true⟩] := by
  decide

/-! ## kfree error handling (C8) -/

theorem findIdx?_addr_unique (bs : List HeapBlock) (ptr : Nat) (b : HeapBlock)
    (hmem : b ∈ bs) (haddr : b.address = ptr)
    (hdist : List.Pairwise (fun b1 b2 => b1.address ≠ b2.address) bs) :
    ∃ i, bs.findIdx? (fun x => x.address == ptr) = some i ∧ bs.getD i dummyBlock = b := by
  induction bs with
  | nil => simp at hmem
  | cons x xs ih =>
    rw [List.pairwise_cons] at hdist
    by_cases hx : x.address = ptr
    · refine ⟨0, ?_, ?_⟩
      · rw [List.findIdx?_cons, if_pos (by simpa using hx)]
      · rcases List.mem_cons.mp hmem with hbx | hbxs
        · rw [hbx]; rfl
        · exact absurd (haddr ▸ hx) (hdist.1 b hbxs)
    · have hbxs : b ∈ xs := by
        rcases List.mem_cons.mp hmem with hbx | hbxs
        · exact absurd (hbx ▸ haddr) hx
        · exact hbxs
      obtain ⟨i, hi, hval⟩ := ih hbxs hdist.2
      refine ⟨i + 1, ?_, hval⟩
      rw [List.findIdx?_cons, if_neg (by simpa using hx), List.findIdx?_succ, hi]
      rfl

/-- C8: `kfree(NULL)` is a no-op; freeing an address that starts no block
reports an invalid pointer and leaves everything but the log unchanged;
freeing an already-free block reports a double free and leaves everything but
the log unchanged.  (Block addresses are pairwise distinct in every reachable
heap; the double-free clause assumes that invariant.) -/
theorem C8_kfree_errors (s : MemState) (ptr : Nat) :
    kfree s 0 = s ∧
    (ptr ≠ 0 → (∀ b ∈ s.heapBlocks, b.address ≠ ptr) →
      kfree s ptr =
        { s with log := s.log ++ ["[MEMORY] Warning: Attempt to free invalid pointer"] }) ∧
    (∀ b, ptr ≠ 0 → b ∈ s.heapBlocks → b.address = ptr → b.isFree = true →
      List.Pairwise (fun b1 b2 => b1.address ≠ b2.address) s.heapBlocks →
      kfree s ptr =
        { s with log := s.log ++ ["[MEMORY] Warning: Double free detected"] }) := by
  refine ⟨by simp [kfree], ?_, ?_⟩
  · intro hptr hnone
    have hfind : s.heapBlocks.findIdx? (fun x => x.address == ptr) = none := by
      rw [List.findIdx?_eq_none_iff]
      intro x hx
      simpa using hnone x hx
    simp only [kfree, if_neg hptr]
    rw [hfind]
  · intro b hptr hmem haddr hfree hdist
    obtain ⟨i, hfind, hval⟩ := findIdx?_addr_unique s.heapBlocks ptr b hmem haddr hdist
    simp only [kfree, if_neg hptr]
    rw [hfind]
    simp only [hval, hfree, if_true]

/-- Heap reaching the double-free scenario: allocate 100 bytes from the
virgin heap, then free them (the heap coalesces back to one free block). -/
def c8_s1 : MemState := (kmalloc memory_init 100).2

/-- See `c8_s1`. -/
def c8_s2 : MemState := kfree c8_s1 0x200000

/-- Witness for C8: on the concrete heap `c8_s2`, `kfree(NULL)` is a no-op,
`kfree(77)` (no block starts at 77) only logs the invalid-pointer diagnostic,
and a second `kfree(0x200000)` only logs the double-free diagnostic. -/
theorem C8_witness :
    kfree c8_s2 0 = c8_s2 ∧
    kfree c8_s2 77 =
      { c8_s2 with log := c8_s2.log ++ ["[MEMORY] Warning: Attempt to free invalid pointer"] } ∧
    kfree c8_s2 0x200000 =
      { c8_s2 with log := c8_s2.log ++ ["[MEMORY] Warning: Double free detected"] } :=
  ⟨(C8_kfree_errors c8_s2 77).1,
   (C8_kfree_errors c8_s2 77).2.1 (by decide) (by decide),
   (C8_kfree_errors c8_s2 0x200000).2.2 ⟨0x200000, HEAP_SIZE, true⟩
     (by decide) (by decide) (by decide) (by decide) (by decide)⟩

/-! ## Process-table lookup lemmas -/

/-- The slot predicate scanned by `process_get_by_pid`. -/
def pidMatches (x : Nat) (slot : Option PCB) : Bool :=
  match slot with
  | some p => p.pid == x
  | none => false

/-- The slot transformation performed by a mutation of the PCB with pid
`pid` through a pointer (see `updatePid`). -/
def applyAt (pid : Nat) (f : PCB → PCB) (slot : Option PCB) : Option PCB :=
  match slot with
  | some p => if p.pid = pid then some (f p) else some p
  | none => none

theorem find?_map_table (tbl : List (Option PCB)) (pid x : Nat) (f : PCB → PCB)
    (hf : ∀ q, (f q).pid = q.pid) :
    ((tbl.map (applyAt pid f)).find? (pidMatches x)).bind id =
      if x = pid then ((tbl.find? (pidMatches x)).bind id).map f
      else (tbl.find? (pidMatches x)).bind id := by
  induction tbl with
  | nil => by_cases hxp : x = pid <;> simp [hxp]
  | cons slot rest ih =>
    cases slot with
    | none =>
      have e0 : ¬(pidMatches x (applyAt pid f none) = true) := by simp [pidMatches, applyAt]
      have e1 : ¬(pidMatches x none = true) := by simp [pidMatches]
      simp only [List.map_cons, List.find?_cons_of_neg _ e0, List.find?_cons_of_neg _ e1]
      exact ih
    | some p =>
      by_cases hpp : p.pid = pid
      · by_cases hpx : p.pid = x
        · have hxp : x = pid := by omega
          have e0 : pidMatches x (applyAt pid f (some p)) = true := by
            simp only [applyAt, if_pos hpp, pidMatches, hf]
            simpa using hpx
          have e1 : pidMatches x (some p) = true := by simp [pidMatches, hpx]
          simp only [List.map_cons, List.find?_cons_of_pos _ e0,
            List.find?_cons_of_pos _ e1, if_pos hxp]
          simp [applyAt, hpp]
        · have e0 : ¬(pidMatches x (applyAt pid f (some p)) = true) := by
            simp only [applyAt, if_pos hpp, pidMatches, hf]
            simpa using hpx
          have e1 : ¬(pidMatches x (some p) = true) := by simp [pidMatches, hpx]
          simp only [List.map_cons, List.find?_cons_of_neg _ e0, List.find?_cons_of_neg _ e1]
          exact ih
      · by_cases hpx : p.pid = x
        · have hxp : ¬(x = pid) := by omega
          have e0 : pidMatches x (applyAt pid f (some p)) = true := by
            simp only [applyAt, if_neg hpp, pidMatches]
            simpa using hpx
          have e1 : pidMatches x (some p) = true := by simp [pidMatches, hpx]
          simp only [List.map_cons, List.find?_cons_of_pos _ e0,
            List.find?_cons_of_pos _ e1, if_neg hxp]
          simp [applyAt, hpp]
        · have e0 : ¬(pidMatches x (applyAt pid f (some p)) = true) := by
            simp only [applyAt, if_neg hpp, pidMatches]
            simpa using hpx
          have e1 : ¬(pidMatches x (some p) = true) := by simp [pidMatches, hpx]
          simp only [List.map_cons, List.find?_cons_of_neg _ e0, List.find?_cons_of_neg _ e1]
          exact ih

theorem lookupPid_updatePid (s : KState) (pid : Nat) (f : PCB → PCB)
    (hf : ∀ q, (f q).pid = q.pid) (x : Nat) :
    lookupPid (updatePid s pid f) x =
      if x = pid then (lookupPid s x).map f else lookupPid s x :=
  find?_map_table s.processTable pid x f hf

theorem mem_readyInsertWalk (s : KState) (pid cur : Nat) (rest : List Nat) :
    pid ∈ readyInsertWalk s pid cur rest := by
  induction rest generalizing cur with
  | nil => simp [readyInsertWalk]
  | cons n t ih =>
    unfold readyInsertWalk
    by_cases hc : queuePriority s pid ≤ queuePriority s n
    · rw [if_pos hc]
      exact List.mem_cons_of_mem cur (ih n)
    · rw [if_neg hc]
      simp

theorem mem_add_to_ready_queue (s : KState) (pid : Nat) :
    pid ∈ (process_add_to_ready_queue s pid).readyQueue := by
  simp only [process_add_to_ready_queue]
  split
  · simp
  · split
    · simp
    · exact mem_readyInsertWalk _ pid _ _

theorem lookupPid_add_to_ready_queue (s : KState) (pid x : Nat) :
    lookupPid (process_add_to_ready_queue s pid) x =
      lookupPid (updatePid s pid (fun p => { p with state := PState.ready })) x := by
  simp only [process_add_to_ready_queue]
  split
  · rfl
  · split <;> rfl

theorem lookupPid_set_ready (s : KState) (pid x : Nat) :
    lookupPid (updatePid s pid (fun q => { q with state := PState.ready })) x =
      if x = pid then (lookupPid s x).map (fun q => { q with state := PState.ready })
      else lookupPid s x :=
  lookupPid_updatePid s pid (fun q => { q with state := PState.ready }) (fun q => rfl) x

theorem lookupPid_remove_from_ready_queue (st : KState) (x y : Nat) :
    lookupPid (process_remove_from_ready_queue st x) y = lookupPid st y := by
  unfold process_remove_from_ready_queue
  split <;> rfl

theorem process_set_state_ready_lookup (s : KState) (pid : Nat) (p : PCB)
    (h : lookupPid s pid = some p) :
    lookupPid (process_set_state s pid PState.ready) pid =
      some { p with state := PState.ready } ∧
    (p.state ≠ PState.ready → pid ∈ (process_set_state s pid PState.ready).readyQueue) := by
  unfold process_set_state
  rw [h]
  dsimp only
  have hb1 : ¬(p.state = PState.ready ∧ PState.ready ≠ PState.ready) := by simp
  have hb3 : ¬(PState.ready = PState.current) := by decide
  rw [if_neg hb1]
  by_cases hst : p.state = PState.ready
  · have hb2 : ¬(p.state ≠ PState.ready ∧ PState.ready = PState.ready) := by simp [hst]
    rw [if_neg hb2, if_neg hb3]
    split
    all_goals refine ⟨?_, fun hcontra => absurd hst hcontra⟩
    all_goals {
      show lookupPid (updatePid s pid fun q => { q with state := PState.ready }) pid = _
      rw [lookupPid_set_ready, if_pos rfl, h]
      rfl
    }
  · have hb2 : p.state ≠ PState.ready ∧ PState.ready = PState.ready := ⟨hst, rfl⟩
    rw [if_pos hb2, if_neg hb3]
    split
    all_goals refine ⟨?_, fun _ => ?_⟩
    all_goals first
    | (show lookupPid (process_add_to_ready_queue
          (updatePid s pid fun q => { q with state := PState.ready }) pid) pid = _
       rw [lookupPid_add_to_ready_queue, lookupPid_set_ready, if_pos rfl,
         lookupPid_set_ready, if_pos rfl, h]
       rfl)
    | (show pid ∈ (process_add_to_ready_queue
          (updatePid s pid fun q => { q with state := PState.ready }) pid).readyQueue
       exact mem_add_to_ready_queue _ _)

theorem lookupPid_append_msg (s : KState) (pid msg x : Nat) :
    lookupPid (updatePid s pid
        (fun p => { p with messageQueue := p.messageQueue ++ [msg] })) x =
      if x = pid then
        (lookupPid s x).map (fun p => { p with messageQueue := p.messageQueue ++ [msg] })
      else lookupPid s x :=
  lookupPid_updatePid s pid (fun p => { p with messageQueue := p.messageQueue ++ [msg] })
    (fun q => rfl) x

theorem lookupPid_clear_waiting (s : KState) (pid x : Nat) :
    lookupPid (updatePid s pid (fun p => { p with waitingForMsg := false })) x =
      if x = pid then (lookupPid s x).map (fun p => { p with waitingForMsg := false })
      else lookupPid s x :=
  lookupPid_updatePid s pid (fun p => { p with waitingForMsg := false }) (fun q => rfl) x

/-- C9: `process_send_message` returns -1 and changes nothing when the
destination pid is unknown or its mailbox already holds 16 messages;
otherwise it returns 0 and appends the word at the mailbox tail, and when the
destination had `waiting_for_msg` set the flag is cleared and a `Blocked`
destination becomes `Ready` and enters the ready queue. -/
theorem C9_send_message (s : KState) (destPid msg : Nat) :
    (lookupPid s destPid = none → process_send_message s destPid msg = (-1, s)) ∧
    (∀ dest, lookupPid s destPid = some dest → 16 ≤ dest.messageQueue.length →
      process_send_message s destPid msg = (-1, s)) ∧
    (∀ dest, lookupPid s destPid = some dest → dest.messageQueue.length < 16 →
      (process_send_message s destPid msg).1 = 0 ∧
      ((lookupPid (process_send_message s destPid msg).2 destPid).map PCB.messageQueue =
        some (dest.messageQueue ++ [msg])) ∧
      (dest.waitingForMsg = false →
        (process_send_message s destPid msg).2 =
          updatePid s destPid (fun p => { p with messageQueue := p.messageQueue ++ [msg] })) ∧
      (dest.waitingForMsg = true →
        ((lookupPid (process_send_message s destPid msg).2 destPid).map PCB.waitingForMsg =
          some false) ∧
        (dest.state = PState.blocked →
          ((lookupPid (process_send_message s destPid msg).2 destPid).map PCB.state =
            some PState.ready) ∧
          destPid ∈ (process_send_message s destPid msg).2.readyQueue))) := by
  refine ⟨?_, ?_, ?_⟩
  · intro h
    simp only [process_send_message]
    rw [h]
  · intro dest hdest hfull
    simp only [process_send_message]
    rw [hdest]
    dsimp only
    rw [if_pos hfull]
  · intro dest hdest hroom
    have hnf : ¬(16 ≤ dest.messageQueue.length) := by omega
    by_cases hw : dest.waitingForMsg = true
    · have hsend : process_send_message s destPid msg =
          (0, process_set_state
            (updatePid
              (updatePid s destPid (fun p => { p with messageQueue := p.messageQueue ++ [msg] }))
              destPid (fun p => { p with waitingForMsg := false }))
            destPid PState.ready) := by
        simp only [process_send_message]
        rw [hdest]
        dsimp only
        rw [if_neg hnf]
        simp [hw, process_unblock]
      have h1 : lookupPid
          (updatePid s destPid (fun p => { p with messageQueue := p.messageQueue ++ [msg] }))
          destPid = some { dest with messageQueue := dest.messageQueue ++ [msg] } := by
        rw [lookupPid_append_msg, if_pos rfl, hdest]
        rfl
      have h2 : lookupPid
          (updatePid
            (updatePid s destPid (fun p => { p with messageQueue := p.messageQueue ++ [msg] }))
            destPid (fun p => { p with waitingForMsg := false }))
          destPid =
          some { dest with messageQueue := dest.messageQueue ++ [msg],
                           waitingForMsg := false } := by
        rw [lookupPid_clear_waiting, if_pos rfl, h1]
        rfl
      obtain ⟨hfinal, hmem⟩ := process_set_state_ready_lookup _ destPid _ h2
      rw [hsend]
      refine ⟨rfl, ?_, fun hcon => by rw [hcon] at hw; exact absurd hw (by decide), fun _ => ?_⟩
      · rw [hfinal]
        rfl
      · refine ⟨by rw [hfinal]; rfl, fun hblocked => ⟨by rw [hfinal]; rfl, ?_⟩⟩
        refine hmem (fun hcontra => ?_)
        have hds : dest.state = PState.ready := hcontra
        rw [hblocked] at hds
        exact absurd hds (by decide)
    · have hwf : dest.waitingForMsg = false := by simpa using hw
      have hsend : process_send_message s destPid msg =
          (0, updatePid s destPid
            (fun p => { p with messageQueue := p.messageQueue ++ [msg] })) := by
        simp only [process_send_message]
        rw [hdest]
        dsimp only
        rw [if_neg hnf]
        simp [hwf]
      rw [hsend]
      refine ⟨rfl, ?_, fun _ => rfl, fun hcon => by rw [hcon] at hwf; exact absurd hwf (by decide)⟩
      rw [lookupPid_append_msg, if_pos rfl, hdest]
      rfl

/-- A minimal PCB literal used to build witness states. -/
def mkPCB (pid : Nat) (st : PState) (prio : Nat) : PCB :=
  { pid := pid, name := "w", state := st, priority := prio, stackBase := 0, stackTop := 0,
    stackSize := 0, context := zeroContext, timeQuantum := 100, cpuTime := 0, waitTime := 0,
    creationTime := 0, messageQueue := [], waitingForMsg := false, parentPid := 0, exitCode := 0,
    age := 0, requiredTime := 0, remainingTime := 0, remainingSlice := 0, heapAddr := 0 }

/-- The PCB of the C9 witness receiver: Blocked, waiting for a message. -/
def c9_pcb : PCB :=
  { mkPCB 1 PState.blocked 1 with waitingForMsg := true }

/-- The PCB of the C9 full-mailbox witness destination. -/
def c9_pcb_full : PCB :=
  { mkPCB 1 PState.ready 1 with messageQueue := List.replicate 16 0 }

/-- Witness state for C9: pid 1 is Blocked and waiting for a message. -/
def c9_state : KState :=
  { kernelBoot with
    processTable := (List.replicate MAX_PROCESSES (none : Option PCB)).set 0 (some c9_pcb) }

/-- Witness state for C9: pid 1 has a full (16-entry) mailbox. -/
def c9_full : KState :=
  { kernelBoot with
    processTable :=
      (List.replicate MAX_PROCESSES (none : Option PCB)).set 0 (some c9_pcb_full) }

theorem C9_witness :
    process_send_message c9_state 5 7 = (-1, c9_state) ∧
    process_send_message c9_full 1 7 = (-1, c9_full) ∧
    (process_send_message c9_state 1 3735928559).1 = 0 ∧
    ((lookupPid (process_send_message c9_state 1 3735928559).2 1).map PCB.messageQueue =
      some [3735928559]) ∧
    ((lookupPid (process_send_message c9_state 1 3735928559).2 1).map PCB.state =
      some PState.ready) ∧
    1 ∈ (process_send_message c9_state 1 3735928559).2.readyQueue := by
  have h3 := (C9_send_message c9_state 1 3735928559).2.2 c9_pcb (by decide) (by decide)
  refine ⟨(C9_send_message c9_state 5 7).1 (by decide),
    (C9_send_message c9_full 1 7).2.1 c9_pcb_full (by decide) (by decide),
    h3.1, ?_, ?_, ?_⟩
  · have := h3.2.1
    simpa [c9_pcb, mkPCB] using this
  · exact ((h3.2.2.2 (by decide)).2 (by decide)).1
  · exact ((h3.2.2.2 (by decide)).2 (by decide)).2

/-! ## Terminating a Ready process (C1, C3) and the aging pid scan (C5) -/

/-- Boot, then `process_create("A", …, Normal)` — pid 1, Ready, queued. -/
def c1_s1 : KState := (process_create kernelBoot "A" 0 PROC_PRIORITY_NORMAL).2

/-- … then `process_create("B", …, Normal)` — pid 2, Ready, queued. -/
def c1_s2 : KState := (process_create c1_s1 "B" 0 PROC_PRIORITY_NORMAL).2

/-- … then `process_terminate(1)` on the Ready process with pid 1. -/
def c1_s3 : KState := process_terminate c1_s2 1

/-- C1 (failing input): pid 1 is live, Ready and linked in the ready queue;
`process_terminate(1)` frees its stack slot, removes its table entry and
frees the PCB — but leaves pid 1 linked in the ready queue, because the
state is set to `Terminated` before the `state == READY` test that guards
the unlink. -/
theorem C1_terminate_ready_stays_queued :
    ((lookupPid c1_s2 1).map PCB.state = some PState.ready) ∧
    1 ∈ c1_s2.readyQueue ∧
    lookupPid c1_s3 1 = none ∧
    (∀ slot ∈ c1_s3.mem.stackTable, slot.pid ≠ 1) ∧
    c1_s3.current = c1_s2.current ∧
    1 ∈ c1_s3.readyQueue := by decide

/-- C3 counterexample: in the reachable state `c1_s3` the ready queue still
holds pid 1, whose PCB has been freed and is in no state at all — so the
queue does not contain exactly the PCBs in state Ready. -/
theorem C3_counterexample :
    1 ∈ c1_s3.readyQueue ∧ lookupPid c1_s3 1 = none := by decide

/-- Boot plus `scheduler_init(PRIORITY, 100)` from scheduler.c. -/
def c5_s0 : KState := SchedulerC.scheduler_init kernelBoot SchedPolicy.priority 100

/-- Create `n` Low-priority processes through `process_create`. -/
def c5_create : Nat → KState → KState
  | 0, s => s
  | n + 1, s => c5_create n (process_create s "W" 0 PROC_PRIORITY_LOW).2

/-- Terminate pids `n, n-1, …, 1`. -/
def c5_kill : Nat → KState → KState
  | 0, s => s
  | n + 1, s => c5_kill n (process_terminate s (n + 1))

/-- Twelve processes created (pids 1–12), the first eleven terminated: only
pid 12 is live, so `process_count` is 1 and the aging scan visits pids
1 … 11 only. -/
def c5_base : KState := c5_kill 11 (c5_create 12 c5_s0)

/-- C5 (failing input): pid 12 is Ready with age 0 and aging is enabled, yet
`scheduler_check_aging` leaves its age at 0 — the scan over pids
`1 … process_count()+10 = 11` never reaches it, so not every Ready PCB is
aged. -/
theorem C5_aging_misses_ready_process :
    c5_base.enableAging = true ∧
    ((lookupPid c5_base 12).map (fun p => (p.state, p.age)) = some (PState.ready, 0)) ∧
    process_count c5_base = 1 ∧
    ((lookupPid (SchedulerC.scheduler_check_aging c5_base) 12).map
      (fun p => (p.state, p.age)) = some (PState.ready, 0)) := by decide

/-! ## Ready-queue insertion discipline (C3 amended) -/

theorem queuePriority_set_ready (s : KState) (pid x : Nat) :
    queuePriority (updatePid s pid (fun p => { p with state := PState.ready })) x =
      queuePriority s x := by
  unfold queuePriority
  rw [lookupPid_set_ready]
  by_cases hx : x = pid
  · rw [if_pos hx]
    cases lookupPid s x <;> rfl
  · rw [if_neg hx]

theorem readyInsertWalk_eq (s2 : KState) (pid cur : Nat) (rest : List Nat) :
    readyInsertWalk s2 pid cur rest =
      (cur :: rest.takeWhile (fun x => queuePriority s2 pid ≤ queuePriority s2 x)) ++
        pid :: rest.dropWhile (fun x => queuePriority s2 pid ≤ queuePriority s2 x) := by
  induction rest generalizing cur with
  | nil => rfl
  | cons n t ih =>
    unfold readyInsertWalk
    by_cases hc : queuePriority s2 pid ≤ queuePriority s2 n
    · rw [if_pos hc, ih, List.takeWhile_cons, List.dropWhile_cons,
        if_pos (by simpa using hc), if_pos (by simpa using hc)]
      rfl
    · rw [if_neg hc, List.takeWhile_cons, List.dropWhile_cons,
        if_neg (by simpa using hc), if_neg (by simpa using hc)]
      rfl

theorem add_to_ready_queue_queue (s : KState) (pid : Nat) (p : PCB)
    (hlook : lookupPid s pid = some p) :
    (process_add_to_ready_queue s pid).readyQueue =
      s.readyQueue.takeWhile (fun x => p.priority ≤ queuePriority s x) ++
        pid :: s.readyQueue.dropWhile (fun x => p.priority ≤ queuePriority s x) := by
  have hqppid : queuePriority s pid = p.priority := by
    unfold queuePriority
    rw [hlook]
  have hfun : (fun x => decide (queuePriority
        (updatePid s pid (fun q => { q with state := PState.ready })) pid ≤ queuePriority
        (updatePid s pid (fun q => { q with state := PState.ready })) x)) =
      (fun x => decide (p.priority ≤ queuePriority s x)) := by
    funext x
    rw [queuePriority_set_ready, queuePriority_set_ready, hqppid]
  simp only [process_add_to_ready_queue]
  cases hq : s.readyQueue with
  | nil =>
    rw [show (updatePid s pid
        (fun q => { q with state := PState.ready })).readyQueue = ([] : List Nat) from hq]
    simp
  | cons h t =>
    rw [show (updatePid s pid
        (fun q => { q with state := PState.ready })).readyQueue = h :: t from hq]
    dsimp only
    by_cases hhead : queuePriority (updatePid s pid (fun q => { q with state := PState.ready })) h <
        queuePriority (updatePid s pid (fun q => { q with state := PState.ready })) pid
    · rw [if_pos hhead]
      have hh2 : queuePriority s h < p.priority := by
        rw [queuePriority_set_ready, queuePriority_set_ready, hqppid] at hhead
        exact hhead
      show pid :: h :: t = _
      rw [List.takeWhile_cons, List.dropWhile_cons,
        if_neg (by simp; omega), if_neg (by simp; omega)]
      rfl
    · rw [if_neg hhead]
      have hh2 : p.priority ≤ queuePriority s h := by
        rw [queuePriority_set_ready, queuePriority_set_ready, hqppid] at hhead
        omega
      show readyInsertWalk _ pid h t = _
      rw [readyInsertWalk_eq, hfun, List.takeWhile_cons, List.dropWhile_cons,
        if_pos (by simpa using hh2), if_pos (by simpa using hh2)]

theorem queuePriority_add_to_ready_queue (s : KState) (pid x : Nat) :
    queuePriority (process_add_to_ready_queue s pid) x = queuePriority s x := by
  unfold queuePriority
  rw [lookupPid_add_to_ready_queue, lookupPid_set_ready]
  by_cases hx : x = pid
  · rw [if_pos hx]
    cases lookupPid s x <;> rfl
  · rw [if_neg hx]

theorem dropWhile_all_lt (prio : Nat) (qp : Nat → Nat) (q : List Nat)
    (hs : List.Pairwise (fun a b => qp b ≤ qp a) q) :
    ∀ x ∈ q.dropWhile (fun x => decide (prio ≤ qp x)), qp x < prio := by
  induction q with
  | nil => simp
  | cons h t ih =>
    rw [List.dropWhile_cons]
    by_cases hh : prio ≤ qp h
    · rw [if_pos (by simpa using hh)]
      exact ih (List.pairwise_cons.mp hs).2
    · rw [if_neg (by simpa using hh)]
      intro x hx
      rcases List.mem_cons.mp hx with rfl | hxt
      · omega
      · have := (List.pairwise_cons.mp hs).1 x hxt
        omega

/-- C3 (amended): every ready-queue insertion places the new PCB after all
queued PCBs of equal or higher priority and before the first PCB of strictly
lower priority (at the tail when none is lower); on a priority-descending
queue this preserves the descending order, FIFO among equal priorities, and
it does not change any PCB's priority.  The other half of the original claim
— that the queue contains exactly the PCBs in state `Ready` — fails on
reachable states because `process_terminate` never unlinks a Ready PCB (see
`C3_counterexample`). -/
theorem C3_insert_position (s : KState) (pid : Nat) (p : PCB)
    (hlook : lookupPid s pid = some p)
    (hsorted : List.Pairwise
      (fun a b => queuePriority s b ≤ queuePriority s a) s.readyQueue) :
    (process_add_to_ready_queue s pid).readyQueue =
      s.readyQueue.takeWhile (fun x => p.priority ≤ queuePriority s x) ++
        pid :: s.readyQueue.dropWhile (fun x => p.priority ≤ queuePriority s x) ∧
    (∀ x ∈ s.readyQueue.takeWhile (fun x => p.priority ≤ queuePriority s x),
      p.priority ≤ queuePriority s x) ∧
    (∀ x ∈ s.readyQueue.dropWhile (fun x => p.priority ≤ queuePriority s x),
      queuePriority s x < p.priority) ∧
    List.Pairwise (fun a b => queuePriority s b ≤ queuePriority s a)
      (process_add_to_ready_queue s pid).readyQueue ∧
    (∀ x, queuePriority (process_add_to_ready_queue s pid) x = queuePriority s x) := by
  have hchar := add_to_ready_queue_queue s pid p hlook
  have hqppid : queuePriority s pid = p.priority := by
    unfold queuePriority
    rw [hlook]
  have htake : ∀ x ∈ s.readyQueue.takeWhile (fun x => p.priority ≤ queuePriority s x),
      p.priority ≤ queuePriority s x := by
    intro x hx
    simpa using List.mem_takeWhile_imp hx
  have hdrop := dropWhile_all_lt p.priority (queuePriority s) s.readyQueue hsorted
  refine ⟨hchar, htake, hdrop, ?_, queuePriority_add_to_ready_queue s pid⟩
  rw [hchar, List.pairwise_append]
  refine ⟨hsorted.sublist (List.takeWhile_sublist _), ?_, ?_⟩
  · rw [List.pairwise_cons]
    refine ⟨?_, hsorted.sublist (List.dropWhile_sublist _)⟩
    intro y hy
    have := hdrop y hy
    rw [hqppid]
    omega
  · intro a ha b hb
    rcases List.mem_cons.mp hb with rfl | hb2
    · rw [hqppid]
      exact htake a ha
    · have h1 := htake a ha
      have h2 := hdrop b hb2
      omega

/-- Witness state for the amended C3: queue `[1, 2]` with priorities High
and Low, and a non-queued PCB 3 of priority Normal about to be inserted. -/
def c3w : KState :=
  { kernelBoot with
    processTable :=
      (((List.replicate MAX_PROCESSES (none : Option PCB)).set 0
        (some (mkPCB 1 PState.ready 2))).set 1
        (some (mkPCB 2 PState.ready 0))).set 2
        (some (mkPCB 3 PState.blocked 1))
    readyQueue := [1, 2] }

theorem C3_witness :
    lookupPid c3w 3 = some (mkPCB 3 PState.blocked 1) ∧
    List.Pairwise (fun a b => queuePriority c3w b ≤ queuePriority c3w a) c3w.readyQueue ∧
    (process_add_to_ready_queue c3w 3).readyQueue =
      c3w.readyQueue.takeWhile
        (fun x => (mkPCB 3 PState.blocked 1).priority ≤ queuePriority c3w x) ++
        3 :: c3w.readyQueue.dropWhile
          (fun x => (mkPCB 3 PState.blocked 1).priority ≤ queuePriority c3w x) := by
  refine ⟨by decide, by decide, ?_⟩
  exact (C3_insert_position c3w 3 (mkPCB 3 PState.blocked 1) (by decide) (by decide)).1

/-! ## C6: preemption on creation of a higher-priority process -/

/-- `List.find?` over a `set` that stores a matching element into a slot on
which `find?` previously failed everywhere returns the stored element. -/
theorem find?_set_of_pos {α : Type} (p : α → Bool) (l : List α) (i : Nat) (a b : α)
    (hnone : l.find? p = none) (hi : l.get? i = some b) (ha : p a = true) :
    (l.set i a).find? p = some a := by
  induction l generalizing i with
  | nil => exact absurd hi (by simp)
  | cons h t ih =>
    have hph : p h = false := by
      cases hp : p h with
      | false => rfl
      | true => rw [List.find?_cons_of_pos t hp] at hnone; exact absurd hnone (by simp)
    have hnone' : t.find? p = none := by
      rwa [List.find?_cons_of_neg t (by simp [hph])] at hnone
    cases i with
    | zero =>
      show (a :: t).find? p = some a
      exact List.find?_cons_of_pos t ha
    | succ j =>
      show (h :: t.set j a).find? p = some a
      rw [List.find?_cons_of_neg _ (by simp [hph])]
      exact ih j hnone' (by simpa using hi)

/-- `List.find?` ignores a `set` that replaces a non-matching element by
another non-matching element. -/
theorem find?_set_of_neg {α : Type} (p : α → Bool) (l : List α) (i : Nat) (a b : α)
    (hi : l.get? i = some b) (hpb : p b = false) (ha : p a = false) :
    (l.set i a).find? p = l.find? p := by
  induction l generalizing i with
  | nil => exact absurd hi (by simp)
  | cons h t ih =>
    cases i with
    | zero =>
      have hb : h = b := by simpa using hi
      subst hb
      show (a :: t).find? p = (h :: t).find? p
      rw [List.find?_cons_of_neg t (by simp [ha]), List.find?_cons_of_neg t (by simp [hpb])]
    | succ j =>
      show (h :: t.set j a).find? p = (h :: t).find? p
      cases hp : p h with
      | true => rw [List.find?_cons_of_pos _ hp, List.find?_cons_of_pos _ hp]
      | false =>
        rw [List.find?_cons_of_neg _ (by simp [hp]), List.find?_cons_of_neg _ (by simp [hp])]
        exact ih j (by simpa using hi)

/-- `lookupPid` unfolded to a `find?` over the table. -/
theorem lookupPid_eq_find? (s : KState) (x : Nat) :
    lookupPid s x = (s.processTable.find? (pidMatches x)).bind id := rfl

/-- A pid absent from the table makes the underlying `find?` fail. -/
theorem find?_none_of_lookup_none (s : KState) (x : Nat)
    (hfresh : lookupPid s x = none) :
    s.processTable.find? (pidMatches x) = none := by
  cases hf : s.processTable.find? (pidMatches x) with
  | none => rfl
  | some slot =>
    have hp := List.find?_some hf
    cases slot with
    | none => exact absurd hp (by simp [pidMatches])
    | some q =>
      rw [lookupPid_eq_find?, hf] at hfresh
      exact absurd hfresh (by simp)

/-- `process_add_to_table` stores the PCB into the found empty slot, making
its pid visible to `lookupPid`, provided the pid was fresh. -/
theorem lookupPid_add_to_table_new (s : KState) (p : PCB) (i : Nat)
    (hslot : s.processTable.findIdx? (fun slot => slot.isNone) = some i)
    (hget : s.processTable.get? i = some none)
    (hfresh : lookupPid s p.pid = none) :
    lookupPid (process_add_to_table s p) p.pid = some p := by
  unfold process_add_to_table
  rw [hslot]
  show ((s.processTable.set i (some p)).find? (pidMatches p.pid)).bind id = some p
  rw [find?_set_of_pos (pidMatches p.pid) s.processTable i (some p) none
    (find?_none_of_lookup_none s p.pid hfresh) hget (by simp [pidMatches])]
  rfl

/-- `process_add_to_table` leaves every other pid's `lookupPid` unchanged. -/
theorem lookupPid_add_to_table_other (s : KState) (p : PCB) (i x : Nat)
    (hslot : s.processTable.findIdx? (fun slot => slot.isNone) = some i)
    (hget : s.processTable.get? i = some none)
    (hx : p.pid ≠ x) :
    lookupPid (process_add_to_table s p) x = lookupPid s x := by
  unfold process_add_to_table
  rw [hslot]
  show ((s.processTable.set i (some p)).find? (pidMatches x)).bind id = lookupPid s x
  rw [find?_set_of_neg (pidMatches x) s.processTable i (some p) none hget rfl
    (by simp [pidMatches]; exact hx)]
  rfl

/-- `process_add_to_table` only touches the table. -/
theorem add_to_table_frame (s : KState) (p : PCB) :
    (process_add_to_table s p).current = s.current ∧
    (process_add_to_table s p).readyQueue = s.readyQueue ∧
    (process_add_to_table s p).simSchedEnabled = s.simSchedEnabled := by
  unfold process_add_to_table
  split <;> exact ⟨rfl, rfl, rfl⟩

/-- `process_add_to_ready_queue` only touches the table and the queue. -/
theorem add_to_ready_queue_frame (s : KState) (pid : Nat) :
    (process_add_to_ready_queue s pid).current = s.current ∧
    (process_add_to_ready_queue s pid).simSchedEnabled = s.simSchedEnabled := by
  simp only [process_add_to_ready_queue]
  split
  · exact ⟨rfl, rfl⟩
  · split <;> exact ⟨rfl, rfl⟩

/-- `takeWhile` of an everywhere-false predicate is empty. -/
theorem takeWhile_eq_nil_of_false {α : Type} (p : α → Bool) (l : List α)
    (h : ∀ x ∈ l, p x = false) :
    l.takeWhile p = [] := by
  cases l with
  | nil => rfl
  | cons a t =>
    rw [List.takeWhile_cons, if_neg (by simp [h a (List.mem_cons_self a t)])]

/-- The PCB assembled by `process_create_with_time` once both allocations
have succeeded (heap block at `addr`, stack with top `top`, memory `m2`). -/
def mkCreatedPCB (s : KState) (name : String) (prio req addr top : Nat)
    (m2 : MemState) : PCB :=
  { pid := s.nextPid
    name := name.take 31
    state := PState.ready
    priority := prio
    stackBase := (stack_get_base m2 s.nextPid).getD 0
    stackTop := top
    stackSize := STACK_SIZE
    context := { zeroContext with eip := 0, esp := top, ebp := top, eflags := 0x202 }
    timeQuantum := get_time_quantum prio
    cpuTime := 0
    waitTime := 0
    creationTime := s.systemTicks
    messageQueue := []
    waitingForMsg := false
    parentPid := s.current.getD 0
    exitCode := 0
    age := 0
    requiredTime := req
    remainingTime := req
    remainingSlice := get_time_quantum prio
    heapAddr := addr }

/-- The state built by `process_create_with_time` just before its trailing
scheduling decision: PCB inserted into the table and the ready queue. -/
def createdBody (s : KState) (name : String) (prio req addr top : Nat)
    (m2 : MemState) : KState :=
  process_add_to_ready_queue
    (process_add_to_table { s with mem := m2, nextPid := s.nextPid + 1 }
      (mkCreatedPCB s name prio req addr top m2))
    s.nextPid

/-- Characterization of a fully successful `process_create_with_time`. -/
theorem create_with_time_eq (s : KState) (name : String) (prio req addr top : Nat)
    (m m2 : MemState)
    (hkm : kmalloc s.mem sizeof_process_t = (some addr, m))
    (hsa : stack_alloc m s.nextPid = (some top, m2)) :
    process_create_with_time s name prio req =
      (some s.nextPid,
       if { createdBody s name prio req addr top m2 with
            totalCreated :=
              (createdBody s name prio req addr top m2).totalCreated + 1 }.simSchedEnabled
       then ProcessC.scheduler_schedule
         { createdBody s name prio req addr top m2 with
           totalCreated :=
             (createdBody s name prio req addr top m2).totalCreated + 1 }
       else { createdBody s name prio req addr top m2 with
              totalCreated :=
                (createdBody s name prio req addr top m2).totalCreated + 1 }) := by
  unfold process_create_with_time
  rw [hkm]
  dsimp only [process_init_pcb]
  rw [hsa]
  rfl

/-- `scheduler_context_switch` (process.c) always installs its argument as
the current process. -/
theorem context_switch_current (s : KState) (np : Option Nat) :
    (ProcessC.scheduler_context_switch s np).current = np := by
  unfold ProcessC.scheduler_context_switch
  cases np <;> rfl

/-- `scheduler_schedule` (process.c) dispatches the ready-queue head when it
strictly outranks the current process. -/
theorem schedule_dispatch_head (s : KState) (cp np : Nat) (cur : PCB)
    (hsim : s.simSchedEnabled = true)
    (hc : s.current = some cp)
    (hh : s.readyQueue.head? = some np)
    (hl : lookupPid s cp = some cur)
    (hlt : cur.priority < queuePriority s np) :
    (ProcessC.scheduler_schedule s).current = some np := by
  unfold ProcessC.scheduler_schedule
  rw [hsim, if_neg (by decide)]
  rw [hc, hh]
  dsimp only
  rw [hl]
  dsimp only
  rw [if_pos (Or.inl hlt)]
  exact context_switch_current s (some np)

/-- C6 counterexample trace, step 1: boot, enable the process.c simulation
scheduler, initialize scheduler.c (priority policy, preemption on), start. -/
def c6a : KState :=
  SchedulerC.scheduler_start
    (SchedulerC.scheduler_init (ProcessC.scheduler_init kernelBoot)
      SchedPolicy.priority 100)

/-- Step 2: create a Normal-priority receiver (pid 1); it is dispatched. -/
def c6b : KState := (process_create_with_time c6a "R" PROC_PRIORITY_NORMAL 1000).2

/-- Step 3: pid 1 blocks in `process_receive_message` (empty mailbox). -/
def c6c : KState := (process_receive_message c6b).2.2

/-- Step 4: create a Low-priority worker (pid 2); it becomes current. -/
def c6d : KState := (process_create_with_time c6c "P1" PROC_PRIORITY_LOW 1000).2

/-- Step 5: send a message to pid 1: it is unblocked into the ready queue,
but `process_send_message` performs no scheduling. -/
def c6e : KState := (process_send_message c6d 1 42).2

/-- Step 6: create a Normal-priority newcomer (pid 3), strictly above the
Low-priority current process. -/
def c6f : Option Nat × KState :=
  process_create_with_time c6e "Pn" PROC_PRIORITY_NORMAL 1000

/-- C6: counterexample.  In state `c6e` the simulation scheduler and
preemption are enabled, the current process (pid 2) has priority Low, and
`process_create_with_time` creates pid 3 with priority Normal — strictly
higher.  The schedule call after creation runs, yet pid 3 does not become
current, and it still is not current after a further `scheduler_tick`: the
queued Normal-priority pid 1 is dispatched instead, because the scheduler
only compares the current process against the queue head. -/
theorem C6_counterexample :
    c6e.simSchedEnabled = true ∧
    c6e.enablePreemption = true ∧
    c6e.current = some 2 ∧
    (lookupPid c6e 2).map (fun p => p.priority) = some PROC_PRIORITY_LOW ∧
    c6f.1 = some 3 ∧
    (lookupPid c6f.2 3).map (fun p => p.priority) = some PROC_PRIORITY_NORMAL ∧
    PROC_PRIORITY_LOW < PROC_PRIORITY_NORMAL ∧
    c6f.2.current ≠ some 3 ∧
    (SchedulerC.scheduler_tick c6f.2).current ≠ some 3 := by
  decide

/-- The trailing scheduling decision of `process_create_with_time`, when
the simulation is enabled and the schedule call installs `np`. -/
theorem ite_sched_current (s : KState) (np : Nat)
    (h : s.simSchedEnabled = true)
    (hc : (ProcessC.scheduler_schedule s).current = some np) :
    (if s.simSchedEnabled then ProcessC.scheduler_schedule s else s).current =
      some np := by
  rw [if_pos h]
  exact hc

/-- C6 (amended): with the simulation scheduler enabled, a successful
`process_create_with_time` whose new priority strictly exceeds the current
process's priority AND the priority of every process already in the ready
queue returns the fresh pid and installs it as the current process
immediately (hence no later than the next tick).  Without the extra
ready-queue condition the claim is false (`C6_counterexample`): the schedule
call after creation only dispatches the queue head. -/
theorem C6_create_preempts_when_top (s : KState) (name : String)
    (prio req addr top i cp : Nat) (m m2 : MemState) (cur : PCB)
    (hkm : kmalloc s.mem sizeof_process_t = (some addr, m))
    (hsa : stack_alloc m s.nextPid = (some top, m2))
    (hsim : s.simSchedEnabled = true)
    (hslot : s.processTable.findIdx? (fun slot => slot.isNone) = some i)
    (hget : s.processTable.get? i = some none)
    (hfresh : lookupPid s s.nextPid = none)
    (hqfresh : s.nextPid ∉ s.readyQueue)
    (hcur : s.current = some cp)
    (hcurlook : lookupPid s cp = some cur)
    (hlt : cur.priority < prio)
    (hq : ∀ x ∈ s.readyQueue, queuePriority s x < prio) :
    (process_create_with_time s name prio req).1 = some s.nextPid ∧
    (process_create_with_time s name prio req).2.current = some s.nextPid := by
  have hcpne : cp ≠ s.nextPid := by
    intro he
    rw [he, hfresh] at hcurlook
    exact absurd hcurlook (by simp)
  have hslot1 : ({ s with mem := m2, nextPid := s.nextPid + 1 } :
      KState).processTable.findIdx? (fun slot => slot.isNone) = some i := hslot
  have hget1 : ({ s with mem := m2, nextPid := s.nextPid + 1 } :
      KState).processTable.get? i = some none := hget
  have hlookA_new : lookupPid
      (process_add_to_table { s with mem := m2, nextPid := s.nextPid + 1 }
        (mkCreatedPCB s name prio req addr top m2)) s.nextPid = some
      (mkCreatedPCB s name prio req addr top m2) :=
    lookupPid_add_to_table_new _ _ i hslot1 hget1 hfresh
  have hlookA_other : ∀ x, x ≠ s.nextPid → lookupPid
      (process_add_to_table { s with mem := m2, nextPid := s.nextPid + 1 }
        (mkCreatedPCB s name prio req addr top m2)) x = lookupPid s x := by
    intro x hx
    exact lookupPid_add_to_table_other _ _ i x hslot1 hget1
      (fun he => hx (he.symm.trans rfl))
  have hqpA : ∀ x, x ≠ s.nextPid → queuePriority
      (process_add_to_table { s with mem := m2, nextPid := s.nextPid + 1 }
        (mkCreatedPCB s name prio req addr top m2)) x = queuePriority s x := by
    intro x hx
    unfold queuePriority
    rw [hlookA_other x hx]
  have hframeA := add_to_table_frame
    ({ s with mem := m2, nextPid := s.nextPid + 1 } : KState)
    (mkCreatedPCB s name prio req addr top m2)
  have hAq : (process_add_to_table { s with mem := m2, nextPid := s.nextPid + 1 }
      (mkCreatedPCB s name prio req addr top m2)).readyQueue = s.readyQueue :=
    hframeA.2.1
  have hfalse : ∀ x ∈ (process_add_to_table
        { s with mem := m2, nextPid := s.nextPid + 1 }
        (mkCreatedPCB s name prio req addr top m2)).readyQueue,
      (fun x => decide ((mkCreatedPCB s name prio req addr top m2).priority ≤
        queuePriority (process_add_to_table
          { s with mem := m2, nextPid := s.nextPid + 1 }
          (mkCreatedPCB s name prio req addr top m2)) x)) x = false := by
    intro x hx
    rw [hAq] at hx
    have hxne : x ≠ s.nextPid := fun he => hqfresh (he ▸ hx)
    have h1 : queuePriority (process_add_to_table
        { s with mem := m2, nextPid := s.nextPid + 1 }
        (mkCreatedPCB s name prio req addr top m2)) x = queuePriority s x :=
      hqpA x hxne
    have h2 := hq x hx
    simp only [h1, decide_eq_false_iff_not]
    show ¬ prio ≤ queuePriority s x
    omega
  have hchar := add_to_ready_queue_queue
    (process_add_to_table { s with mem := m2, nextPid := s.nextPid + 1 }
      (mkCreatedPCB s name prio req addr top m2))
    s.nextPid (mkCreatedPCB s name prio req addr top m2) hlookA_new
  rw [takeWhile_eq_nil_of_false _ _ hfalse] at hchar
  have hBh : (createdBody s name prio req addr top m2).readyQueue.head? =
      some s.nextPid := by
    show (process_add_to_ready_queue _ s.nextPid).readyQueue.head? = some s.nextPid
    rw [hchar]
    rfl
  have hframeB := add_to_ready_queue_frame
    (process_add_to_table { s with mem := m2, nextPid := s.nextPid + 1 }
      (mkCreatedPCB s name prio req addr top m2)) s.nextPid
  have hBcur : (createdBody s name prio req addr top m2).current = some cp :=
    hframeB.1.trans (hframeA.1.trans hcur)
  have hBsim : (createdBody s name prio req addr top m2).simSchedEnabled = true :=
    hframeB.2.trans (hframeA.2.2.trans hsim)
  have hBlook : lookupPid (createdBody s name prio req addr top m2) cp = some cur := by
    show lookupPid (process_add_to_ready_queue _ s.nextPid) cp = some cur
    rw [lookupPid_add_to_ready_queue, lookupPid_set_ready, if_neg hcpne]
    exact (hlookA_other cp hcpne).trans hcurlook
  have hqpB : queuePriority (createdBody s name prio req addr top m2) s.nextPid =
      prio := by
    show queuePriority (process_add_to_ready_queue _ s.nextPid) s.nextPid = prio
    rw [queuePriority_add_to_ready_queue]
    unfold queuePriority
    rw [hlookA_new]
    rfl
  have hlt4 : cur.priority <
      queuePriority (createdBody s name prio req addr top m2) s.nextPid := by
    rw [hqpB]
    exact hlt
  rw [create_with_time_eq s name prio req addr top m m2 hkm hsa]
  refine ⟨rfl, ?_⟩
  exact ite_sched_current _ s.nextPid hBsim
    (schedule_dispatch_head _ cp s.nextPid cur hBsim hBcur hBh hBlook hlt4)

/-- Witness state for the amended C6: simulation enabled, current process
pid 1 of priority Low, one Low-priority pid in the ready queue, a free table
slot, fresh pid 3 about to be created with priority Normal. -/
def c6w : KState :=
  { kernelBoot with
    simSchedEnabled := true
    current := some 1
    nextPid := 3
    readyQueue := [2]
    processTable :=
      ((List.replicate MAX_PROCESSES (none : Option PCB)).set 0
        (some (mkPCB 1 PState.current PROC_PRIORITY_LOW))).set 1
        (some (mkPCB 2 PState.ready PROC_PRIORITY_LOW)) }

theorem C6_witness :
    c6w.simSchedEnabled = true ∧
    (process_create_with_time c6w "N" PROC_PRIORITY_NORMAL 50).1 = some 3 ∧
    (process_create_with_time c6w "N" PROC_PRIORITY_NORMAL 50).2.current = some 3 := by
  have h := C6_create_preempts_when_top c6w "N" PROC_PRIORITY_NORMAL 50
    0x200000 ((stack_alloc (kmalloc c6w.mem sizeof_process_t).2 3).1.getD 0) 2 1
    (kmalloc c6w.mem sizeof_process_t).2
    (stack_alloc (kmalloc c6w.mem sizeof_process_t).2 3).2
    (mkPCB 1 PState.current PROC_PRIORITY_LOW)
    rfl rfl rfl rfl rfl rfl (by decide) rfl rfl (by decide) (by decide)
  exact ⟨rfl, h.1, h.2⟩

/-! ## C10: failed creation burns the pid and frees the PCB block -/

/-- Every heap block starting at `addr` is free. -/
def addrFree (bs : List HeapBlock) (addr : Nat) : Prop :=
  ∀ b ∈ bs, b.address = addr → b.isFree = true

/-- `stack_alloc` never touches the heap block table. -/
theorem stack_alloc_heapBlocks (s : MemState) (pid : Nat) :
    (stack_alloc s pid).2.heapBlocks = s.heapBlocks := by
  unfold stack_alloc
  split <;> rfl

/-- Marking the unique block at `addr` free establishes `addrFree`. -/
theorem addrFree_set_free (bs : List HeapBlock) (i addr : Nat)
    (hi : i < bs.length)
    (haddr : (blk bs i).address = addr)
    (hdist : List.Pairwise (fun b1 b2 => b1.address ≠ b2.address) bs) :
    addrFree (bs.set i { blk bs i with isFree := true }) addr := by
  intro c hc hcaddr
  obtain ⟨k, hk, hck⟩ := List.mem_iff_getElem.mp hc
  have hklen : k < bs.length := by simpa using hk
  have hckb : blk (bs.set i { blk bs i with isFree := true }) k = c := by
    rw [blk, List.getD_eq_getElem _ _ hk]
    exact hck
  by_cases hik : i = k
  · subst hik
    rw [blk_set_eq _ _ _ hi] at hckb
    rw [← hckb]
  · exfalso
    rw [blk_set_ne _ _ _ _ hik] at hckb
    have hpair := List.pairwise_iff_getElem.mp hdist
    have hbk : (blk bs k).address = addr := by rw [hckb]; exact hcaddr
    have hbi2 : blk bs i = bs[i] := List.getD_eq_getElem _ _ hi
    have hbk2 : blk bs k = bs[k] := List.getD_eq_getElem _ _ hklen
    rcases Nat.lt_or_ge i k with h1 | h1
    · exact (hpair i k hi hklen h1) (by rw [← hbi2, ← hbk2, haddr, hbk])
    · have h2 : k < i := by omega
      exact (hpair k i hklen hi h2) (by rw [← hbi2, ← hbk2, haddr, hbk])

/-- The inner merge loop preserves `addrFree` (for a non-null address). -/
theorem mergeInnerGo_addrFree (addr : Nat) (h0 : addr ≠ 0) (g : Nat) :
    ∀ (bs : List HeapBlock) (i j : Nat),
      addrFree bs addr → addrFree (mergeInnerGo g bs i j) addr := by
  induction g with
  | zero => intro bs i j h; exact h
  | succ n ih =>
    intro bs i j h
    by_cases hj : j < bs.length
    · set bi := bs.getD i dummyBlock with hbidef
      set bj := bs.getD j dummyBlock with hbjdef
      by_cases hcond : (bj.isFree && (bj.address == bi.address + bi.size)) = true
      · have hstep : mergeInnerGo (n + 1) bs i j =
            mergeInnerGo n ((bs.set i { bi with size := bi.size + bj.size }).eraseIdx j) i j := by
          simp only [mergeInnerGo, if_pos hj, hcond, if_true]
        rw [hstep]
        apply ih
        intro c hc hcaddr
        rcases List.mem_or_eq_of_mem_set (List.mem_of_mem_eraseIdx hc) with hcb | hcnew
        · exact h c hcb hcaddr
        · by_cases hilen : i < bs.length
          · have hmem : blk bs i ∈ bs := blk_mem bs i hilen
            have : c.isFree = bi.isFree := by rw [hcnew]
            rw [this]
            exact h bi hmem (by rw [hcnew] at hcaddr; exact hcaddr)
          · have hdum : bi = dummyBlock := by
              rw [hbidef, List.getD_eq_getElem?_getD, List.getElem?_eq_none (by omega)]
              rfl
            rw [hcnew, hdum] at hcaddr
            exact absurd hcaddr.symm h0
      · have hstep : mergeInnerGo (n + 1) bs i j = mergeInnerGo n bs i (j + 1) := by
          simp only [mergeInnerGo, if_pos hj]
          rw [if_neg hcond]
        rw [hstep]
        exact ih bs i (j + 1) h
    · have hstep : mergeInnerGo (n + 1) bs i j = bs := by
        simp only [mergeInnerGo, if_neg hj]
      rw [hstep]
      exact h

/-- The outer merge loop preserves `addrFree` (for a non-null address). -/
theorem mergeOuterGo_addrFree (addr : Nat) (h0 : addr ≠ 0) (g : Nat) :
    ∀ (bs : List HeapBlock) (i : Nat),
      addrFree bs addr → addrFree (mergeOuterGo g bs i) addr := by
  induction g with
  | zero => intro bs i h; exact h
  | succ n ih =>
    intro bs i h
    by_cases hguard : i + 1 < bs.length
    · by_cases hfree : (bs.getD i dummyBlock).isFree = true
      · have hstep : mergeOuterGo (n + 1) bs i =
            mergeOuterGo n (mergeInnerGo (bs.length - (i + 1)) bs i (i + 1)) (i + 1) := by
          simp only [mergeOuterGo, if_pos hguard, hfree, if_true]
        rw [hstep]
        exact ih _ (i + 1) (mergeInnerGo_addrFree addr h0 _ bs i (i + 1) h)
      · have hfree0 : (bs.getD i dummyBlock).isFree = false := by simpa using hfree
        have hstep : mergeOuterGo (n + 1) bs i = mergeOuterGo n bs (i + 1) := by
          simp only [mergeOuterGo, if_pos hguard, hfree0, Bool.false_eq_true, if_false]
        rw [hstep]
        exact ih bs (i + 1) h
    · have hstep : mergeOuterGo (n + 1) bs i = bs := by
        simp only [mergeOuterGo, if_neg hguard]
      rw [hstep]
      exact h

/-- `kfree` on the unique, live block at a non-null `addr` leaves every block
at `addr` free. -/
theorem kfree_addrFree (s : MemState) (addr : Nat) (b : HeapBlock)
    (h0 : addr ≠ 0) (hmem : b ∈ s.heapBlocks) (haddr : b.address = addr)
    (hlive : b.isFree = false)
    (hdist : List.Pairwise (fun b1 b2 => b1.address ≠ b2.address) s.heapBlocks) :
    addrFree (kfree s addr).heapBlocks addr := by
  unfold kfree
  rw [if_neg h0]
  obtain ⟨i, hfi, hgi⟩ := findIdx?_addr_unique s.heapBlocks addr b hmem haddr hdist
  rw [hfi]
  dsimp only
  have hilen : i < s.heapBlocks.length := by
    by_contra hge
    rw [List.getD_eq_getElem?_getD, List.getElem?_eq_none (by omega)] at hgi
    rw [← hgi] at haddr
    exact h0 (haddr.symm.trans rfl)
  rw [hgi, if_neg (by rw [hlive]; simp)]
  dsimp only
  have hset := addrFree_set_free s.heapBlocks i addr hilen (by rw [blk, hgi]; exact haddr) hdist
  have heq : ({ blk s.heapBlocks i with isFree := true } : HeapBlock) =
      { b with isFree := true } := by rw [blk, hgi]
  rw [heq] at hset
  exact mergeOuterGo_addrFree addr h0 _ _ 0 hset

/-- Characterization of `process_create` when the stack allocation fails:
the pid counter was already bumped and the PCB block is `kfree`d. -/
theorem create_fail_eq (s : KState) (name : String) (ep prio addr : Nat)
    (m m2 : MemState)
    (hkm : kmalloc s.mem sizeof_process_t = (some addr, m))
    (hsa : stack_alloc m s.nextPid = (none, m2)) :
    process_create s name ep prio =
      (none, { s with mem := kfree m2 addr, nextPid := s.nextPid + 1 }) := by
  unfold process_create
  rw [hkm]
  dsimp only [process_init_pcb]
  rw [hsa]

/-- Characterization of `process_create_with_time` when the stack allocation
fails. -/
theorem create_with_time_fail_eq (s : KState) (name : String) (prio req addr : Nat)
    (m m2 : MemState)
    (hkm : kmalloc s.mem sizeof_process_t = (some addr, m))
    (hsa : stack_alloc m s.nextPid = (none, m2)) :
    process_create_with_time s name prio req =
      (none, { s with mem := kfree m2 addr, nextPid := s.nextPid + 1 }) := by
  unfold process_create_with_time
  rw [hkm]
  dsimp only [process_init_pcb]
  rw [hsa]

/-- A successful `process_create` hands out exactly the current value of the
pid counter. -/
theorem process_create_some_pid (s : KState) (name : String) (ep prio pid : Nat)
    (h : (process_create s name ep prio).1 = some pid) :
    pid = s.nextPid := by
  unfold process_create at h
  rcases hk : kmalloc s.mem sizeof_process_t with ⟨o, m⟩
  rw [hk] at h
  cases o with
  | none => exact absurd h (by simp)
  | some addr =>
    dsimp only [process_init_pcb] at h
    rcases hs2 : stack_alloc m s.nextPid with ⟨o2, m2⟩
    rw [hs2] at h
    cases o2 with
    | none => exact absurd h (by simp)
    | some top =>
      dsimp only at h
      exact (Option.some.inj h).symm

/-- A successful `process_create_with_time` hands out exactly the current
value of the pid counter. -/
theorem process_create_with_time_some_pid (s : KState) (name : String)
    (prio req pid : Nat)
    (h : (process_create_with_time s name prio req).1 = some pid) :
    pid = s.nextPid := by
  unfold process_create_with_time at h
  rcases hk : kmalloc s.mem sizeof_process_t with ⟨o, m⟩
  rw [hk] at h
  cases o with
  | none => exact absurd h (by simp)
  | some addr =>
    dsimp only [process_init_pcb] at h
    rcases hs2 : stack_alloc m s.nextPid with ⟨o2, m2⟩
    rw [hs2] at h
    cases o2 with
    | none => exact absurd h (by simp)
    | some top =>
      dsimp only at h
      exact (Option.some.inj h).symm

/-- C10: a creation attempt (either entry point) that fails because the
stack allocation returns NULL reports failure, leaves the process table and
the ready queue untouched und the PCB's heap block freed, yet keeps the pid
counter incremented; and every successful creation returns exactly the
then-current counter value, so the pid burnt by the failed attempt is never
handed out again. -/
theorem C10_failed_create_burns_pid (s : KState) (name : String)
    (ep prio req addr : Nat) (m m2 : MemState) (b : HeapBlock)
    (hkm : kmalloc s.mem sizeof_process_t = (some addr, m))
    (hsa : stack_alloc m s.nextPid = (none, m2))
    (h0 : addr ≠ 0)
    (hmem : b ∈ m.heapBlocks) (haddr : b.address = addr) (hlive : b.isFree = false)
    (hdist : List.Pairwise (fun b1 b2 => b1.address ≠ b2.address) m.heapBlocks) :
    (process_create s name ep prio).1 = none ∧
    (process_create s name ep prio).2.nextPid = s.nextPid + 1 ∧
    (process_create s name ep prio).2.processTable = s.processTable ∧
    (process_create s name ep prio).2.readyQueue = s.readyQueue ∧
    addrFree (process_create s name ep prio).2.mem.heapBlocks addr ∧
    (process_create_with_time s name prio req).1 = none ∧
    (process_create_with_time s name prio req).2.nextPid = s.nextPid + 1 ∧
    (process_create_with_time s name prio req).2.processTable = s.processTable ∧
    (process_create_with_time s name prio req).2.readyQueue = s.readyQueue ∧
    addrFree (process_create_with_time s name prio req).2.mem.heapBlocks addr ∧
    (∀ (s2 : KState) (n2 : String) (e2 p2 pid : Nat),
      (process_create s2 n2 e2 p2).1 = some pid → pid = s2.nextPid) ∧
    (∀ (s2 : KState) (n2 : String) (p2 r2 pid : Nat),
      (process_create_with_time s2 n2 p2 r2).1 = some pid → pid = s2.nextPid) := by
  have hhb : m2.heapBlocks = m.heapBlocks := by
    have h2 : (stack_alloc m s.nextPid).2 = m2 := congrArg Prod.snd hsa
    rw [← h2]
    exact stack_alloc_heapBlocks m s.nextPid
  have hfree : addrFree (kfree m2 addr).heapBlocks addr :=
    kfree_addrFree m2 addr b h0 (by rw [hhb]; exact hmem) haddr hlive
      (by rw [hhb]; exact hdist)
  rw [create_fail_eq s name ep prio addr m m2 hkm hsa,
    create_with_time_fail_eq s name prio req addr m m2 hkm hsa]
  exact ⟨rfl, rfl, rfl, rfl, hfree, rfl, rfl, rfl, rfl, hfree,
    process_create_some_pid, process_create_with_time_some_pid⟩

/-- Witness state for C10: a fresh kernel whose stack table is completely
occupied, so the next `stack_alloc` must fail. -/
def c10w : KState :=
  { kernelBoot with
    mem := { memory_init with
             stackTable := List.replicate MAX_PROCESS_STACKS ⟨0, 0, 0, 0, false⟩
             numStacks := MAX_PROCESS_STACKS } }

theorem C10_witness :
    (0x200000 : Nat) ≠ 0 ∧
    (process_create c10w "F" 0 PROC_PRIORITY_NORMAL).1 = none ∧
    (process_create c10w "F" 0 PROC_PRIORITY_NORMAL).2.nextPid = 2 ∧
    (process_create_with_time c10w "F" PROC_PRIORITY_NORMAL 10).1 = none ∧
    addrFree (process_create c10w "F" 0 PROC_PRIORITY_NORMAL).2.mem.heapBlocks 0x200000 := by
  have h := C10_failed_create_burns_pid c10w "F" 0 PROC_PRIORITY_NORMAL 10
    0x200000 (kmalloc c10w.mem sizeof_process_t).2
    (stack_alloc (kmalloc c10w.mem sizeof_process_t).2 1).2
    ⟨0x200000, 244, false⟩
    rfl rfl (by decide) (by decide) rfl rfl (by decide)
  exact ⟨by decide, h.1, h.2.1, h.2.2.2.2.2.1, h.2.2.2.2.1⟩

/-! ## C4: termination exactly when cpu time reaches required time -/

/-- The tick-accounting view of a PCB: pid, CPU time, required time. -/
def core (p : PCB) : Nat × Nat × Nat := (p.pid, p.cpuTime, p.requiredTime)

theorem core_lookup_updatePid (s : KState) (pid : Nat) (f : PCB → PCB)
    (hf : ∀ q, core (f q) = core q) (x : Nat) :
    (lookupPid (updatePid s pid f) x).map core = (lookupPid s x).map core := by
  rw [lookupPid_updatePid s pid f (fun q => congrArg (fun t => t.1) (hf q)) x]
  by_cases hx : x = pid
  · rw [if_pos hx]
    cases lookupPid s x with
    | none => rfl
    | some p => simp [hf p]
  · rw [if_neg hx]

theorem core_remove_from_ready_queue (st : KState) (x y : Nat) :
    (lookupPid (process_remove_from_ready_queue st x) y).map core =
      (lookupPid st y).map core := by
  rw [lookupPid_remove_from_ready_queue]

theorem core_add_to_ready_queue (s : KState) (pid x : Nat) :
    (lookupPid (process_add_to_ready_queue s pid) x).map core =
      (lookupPid s x).map core := by
  rw [lookupPid_add_to_ready_queue]
  exact core_lookup_updatePid s pid (fun q => { q with state := PState.ready })
    (fun q => rfl) x

theorem core_set_state (s : KState) (pid : Nat) (st : PState) (x : Nat) :
    (lookupPid (process_set_state s pid st) x).map core =
      (lookupPid s x).map core := by
  unfold process_set_state
  cases hl : lookupPid s pid with
  | none => rfl
  | some p =>
    dsimp only
    have h1 : (lookupPid (updatePid s pid (fun q => { q with state := st })) x).map core =
        (lookupPid s x).map core :=
      core_lookup_updatePid s pid (fun q => { q with state := st }) (fun q => rfl) x
    by_cases hc1 : p.state = PState.ready ∧ st ≠ PState.ready
    · rw [if_pos hc1]
      have h2 := (core_remove_from_ready_queue
        (updatePid s pid (fun q => { q with state := st })) pid x).trans h1
      split
      · exact h2
      · split
        · exact h2
        · exact h2
    · rw [if_neg hc1]
      by_cases hc2 : p.state ≠ PState.ready ∧ st = PState.ready
      · rw [if_pos hc2]
        have h2 := (core_add_to_ready_queue
          (updatePid s pid (fun q => { q with state := st })) pid x).trans h1
        split
        · exact h2
        · split
          · exact h2
          · exact h2
      · rw [if_neg hc2]
        split
        · exact h1
        · split
          · exact h1
          · exact h1

theorem core_boost_priority (s : KState) (pid x : Nat) :
    (lookupPid (process_boost_priority s pid) x).map core =
      (lookupPid s x).map core := by
  unfold process_boost_priority
  cases hl : lookupPid s pid with
  | none => rfl
  | some p =>
    dsimp only
    have h1 : (lookupPid (updatePid s pid (fun q => { q with priority := q.priority + 1 }))
        x).map core = (lookupPid s x).map core :=
      core_lookup_updatePid s pid (fun q => { q with priority := q.priority + 1 })
        (fun q => rfl) x
    split
    · split
      · exact (core_add_to_ready_queue _ pid x).trans
          ((core_remove_from_ready_queue _ pid x).trans h1)
      · exact h1
    · rfl

theorem core_reset_age (s : KState) (pid x : Nat) :
    (lookupPid (process_reset_age s pid) x).map core = (lookupPid s x).map core := by
  unfold process_reset_age
  exact core_lookup_updatePid s pid (fun q => { q with age := 0 }) (fun q => rfl) x

theorem core_agingBody (s : KState) (pid x : Nat) :
    (lookupPid (SchedulerC.agingBody s pid) x).map core = (lookupPid s x).map core := by
  unfold SchedulerC.agingBody
  cases h1 : lookupPid s pid with
  | none => rfl
  | some p =>
    dsimp only
    split
    · rfl
    · have hu : (lookupPid (updatePid s pid (fun q => { q with age := q.age + 1 })) x).map
          core = (lookupPid s x).map core :=
        core_lookup_updatePid s pid (fun q => { q with age := q.age + 1 }) (fun q => rfl) x
      cases h2 : lookupPid (updatePid s pid (fun q => { q with age := q.age + 1 })) pid with
      | none => exact hu
      | some p2 =>
        dsimp only
        split
        · exact (core_reset_age _ pid x).trans ((core_boost_priority _ pid x).trans hu)
        · exact hu

theorem core_agingGo (g : Nat) :
    ∀ (s : KState) (pid x : Nat),
      (lookupPid (SchedulerC.agingGo g s pid) x).map core = (lookupPid s x).map core := by
  induction g with
  | zero => intro s pid x; rfl
  | succ n ih =>
    intro s pid x
    exact (ih (SchedulerC.agingBody s pid) (pid + 1) x).trans (core_agingBody s pid x)

theorem core_check_aging (s : KState) (x : Nat) :
    (lookupPid (SchedulerC.scheduler_check_aging s) x).map core =
      (lookupPid s x).map core := by
  unfold SchedulerC.scheduler_check_aging
  split
  · rfl
  · exact core_agingGo _ s 1 x

theorem core_select_next (s : KState) (x : Nat) :
    (lookupPid (SchedulerC.scheduler_select_next_process s).2 x).map core =
      (lookupPid s x).map core := by
  unfold SchedulerC.scheduler_select_next_process SchedulerC.select_round_robin
    SchedulerC.select_priority SchedulerC.select_priority_rr SchedulerC.select_fcfs
    process_dequeue_ready
  split <;> (split <;> first | rfl | exact core_remove_from_ready_queue _ _ _)

theorem core_schedule (s : KState) (x : Nat) :
    (lookupPid (SchedulerC.scheduler_schedule s) x).map core =
      (lookupPid s x).map core := by
  unfold SchedulerC.scheduler_schedule
  split
  · rfl
  · dsimp only
    cases hc : s.current with
    | none =>
      split
      · rename_i s2 heq
        have hs2 : (SchedulerC.scheduler_select_next_process s).2 = s2 :=
          congrArg Prod.snd heq
        rw [← hs2]
        exact core_select_next s x
      · rename_i np s2 heq
        have hs2 : (SchedulerC.scheduler_select_next_process s).2 = s2 :=
          congrArg Prod.snd heq
        have hcore : (lookupPid s2 x).map core = (lookupPid s x).map core := by
          rw [← hs2]; exact core_select_next s x
        have h3 := (core_set_state s2 np PState.current x).trans hcore
        split
        · split
          · exact h3
          · exact h3
        · split
          · exact h3
          · exact h3
    | some cp =>
      dsimp only
      cases hl : lookupPid s cp with
      | none =>
        dsimp only
        split
        · rename_i s2 heq
          have hs2 : (SchedulerC.scheduler_select_next_process s).2 = s2 :=
            congrArg Prod.snd heq
          rw [← hs2]
          exact core_select_next s x
        · rename_i np s2 heq
          have hs2 : (SchedulerC.scheduler_select_next_process s).2 = s2 :=
            congrArg Prod.snd heq
          have hcore : (lookupPid s2 x).map core = (lookupPid s x).map core := by
            rw [← hs2]; exact core_select_next s x
          have h3 := (core_set_state s2 np PState.current x).trans hcore
          split
          · split
            · exact h3
            · exact h3
          · split
            · exact h3
            · exact h3
      | some cur =>
        dsimp only
        by_cases hst : cur.state = PState.current
        · rw [if_pos hst]
          have hW : (lookupPid (process_set_state s cp PState.ready) x).map core =
              (lookupPid s x).map core := core_set_state s cp PState.ready x
          split
          · rename_i s2 heq
            have hs2 : (SchedulerC.scheduler_select_next_process
                (process_set_state s cp PState.ready)).2 = s2 := congrArg Prod.snd heq
            rw [← hs2]
            exact (core_select_next _ x).trans hW
          · rename_i np s2 heq
            have hs2 : (SchedulerC.scheduler_select_next_process
                (process_set_state s cp PState.ready)).2 = s2 := congrArg Prod.snd heq
            have hcore : (lookupPid s2 x).map core = (lookupPid s x).map core := by
              rw [← hs2]; exact (core_select_next _ x).trans hW
            have h3 := (core_set_state s2 np PState.current x).trans hcore
            split
            · split
              · exact h3
              · exact h3
            · split
              · exact h3
              · exact h3
        · rw [if_neg hst]
          split
          · rename_i s2 heq
            have hs2 : (SchedulerC.scheduler_select_next_process s).2 = s2 :=
              congrArg Prod.snd heq
            rw [← hs2]
            exact core_select_next s x
          · rename_i np s2 heq
            have hs2 : (SchedulerC.scheduler_select_next_process s).2 = s2 :=
              congrArg Prod.snd heq
            have hcore : (lookupPid s2 x).map core = (lookupPid s x).map core := by
              rw [← hs2]; exact core_select_next s x
            have h3 := (core_set_state s2 np PState.current x).trans hcore
            split
            · split
              · exact h3
              · exact h3
            · split
              · exact h3
              · exact h3

def pidsOf (tbl : List (Option PCB)) : List Nat :=
  tbl.filterMap (fun slot => slot.map (fun p => p.pid))

theorem find?_set_none_of_nodup (tbl : List (Option PCB)) (pid : Nat) :
    ∀ (i : Nat), (pidsOf tbl).Nodup →
      tbl.findIdx? (pidMatches pid) = some i →
      (tbl.set i none).find? (pidMatches pid) = none := by
  induction tbl with
  | nil => intro i _ hidx; exact absurd hidx (by simp)
  | cons a t ih =>
    intro i hU hidx
    cases hpa : pidMatches pid a with
    | true =>
      have hi0 : i = 0 := by
        rw [List.findIdx?_cons, if_pos hpa] at hidx
        exact (Option.some.inj hidx).symm
      subst hi0
      show (none :: t).find? (pidMatches pid) = none
      rw [List.find?_cons_of_neg _ (by simp [pidMatches]), List.find?_eq_none]
      intro x hx hpx
      cases x with
      | none => simp [pidMatches] at hpx
      | some q =>
        cases a with
        | none => simp [pidMatches] at hpa
        | some r =>
          have hr : r.pid = pid := by simpa [pidMatches] using hpa
          have hq : q.pid = pid := by simpa [pidMatches] using hpx
          have hU2 : r.pid ∉ pidsOf t := by
            have he : pidsOf (some r :: t) = r.pid :: pidsOf t := rfl
            rw [he] at hU
            exact (List.nodup_cons.mp hU).1
          apply hU2
          rw [hr, ← hq]
          exact List.mem_filterMap.mpr ⟨some q, hx, rfl⟩
    | false =>
      rw [List.findIdx?_cons, if_neg (by simp [hpa]), List.findIdx?_succ] at hidx
      cases hjt : t.findIdx? (pidMatches pid) with
      | none => rw [hjt] at hidx; exact absurd hidx (by simp)
      | some j =>
        rw [hjt] at hidx
        have hij : i = j + 1 := by simpa using hidx.symm
        subst hij
        show (a :: t.set j none).find? (pidMatches pid) = none
        rw [List.find?_cons_of_neg _ (by simp [hpa])]
        apply ih j ?_ hjt
        cases a with
        | none => exact hU
        | some r =>
          have he : pidsOf (some r :: t) = r.pid :: pidsOf t := rfl
          rw [he] at hU
          exact (List.nodup_cons.mp hU).2

theorem lookupPid_remove_from_table_self (s : KState) (pid : Nat)
    (hU : (pidsOf s.processTable).Nodup) :
    lookupPid (process_remove_from_table s pid) pid = none := by
  unfold process_remove_from_table
  cases hidx : s.processTable.findIdx? (fun slot =>
      match slot with | some p => p.pid == pid | none => false) with
  | none =>
    dsimp only
    rw [lookupPid_eq_find?]
    have hf : s.processTable.find? (pidMatches pid) = none := by
      rw [List.find?_eq_none]
      intro x hx hpx
      rw [List.findIdx?_eq_none_iff] at hidx
      have h2 : pidMatches pid x = false := hidx x hx
      rw [h2] at hpx
      exact absurd hpx (by simp)
    rw [hf]
    rfl
  | some i =>
    dsimp only
    rw [lookupPid_eq_find?]
    have hidx2 : s.processTable.findIdx? (pidMatches pid) = some i := hidx
    rw [show ({ s with processTable := s.processTable.set i none } :
      KState).processTable = s.processTable.set i none from rfl]
    rw [find?_set_none_of_nodup s.processTable pid i hU hidx2]
    rfl

theorem pidsOf_updatePid (s : KState) (pid : Nat) (f : PCB → PCB)
    (hf : ∀ q, (f q).pid = q.pid) :
    pidsOf (updatePid s pid f).processTable = pidsOf s.processTable := by
  show pidsOf (s.processTable.map (fun slot =>
    match slot with
    | some p => if p.pid = pid then some (f p) else some p
    | none => none)) = pidsOf s.processTable
  unfold pidsOf
  rw [List.filterMap_map]
  congr 1
  funext slot
  cases slot with
  | none => rfl
  | some p =>
    show (if p.pid = pid then some (f p) else some p).map (fun p => p.pid) = some p.pid
    by_cases hp : p.pid = pid
    · rw [if_pos hp]
      show some (f p).pid = some p.pid
      rw [hf p]
    · rw [if_neg hp]
      rfl

theorem lookupPid_terminate_self (s : KState) (pid : Nat) (p : PCB)
    (hl : lookupPid s pid = some p)
    (hU : (pidsOf s.processTable).Nodup) :
    lookupPid (process_terminate s pid) pid = none := by
  unfold process_terminate
  rw [hl]
  dsimp only
  have hl1 : lookupPid (updatePid s pid (fun q => { q with state := PState.terminated }))
      pid = some { p with state := PState.terminated } := by
    rw [lookupPid_updatePid s pid (fun q => { q with state := PState.terminated })
      (fun q => rfl) pid, if_pos rfl, hl]
    rfl
  rw [hl1]
  dsimp only
  rw [if_neg (by decide : ¬ (PState.terminated = PState.ready))]
  have hU1 : (pidsOf (updatePid s pid
      (fun q => { q with state := PState.terminated })).processTable).Nodup := by
    rw [pidsOf_updatePid s pid (fun q => { q with state := PState.terminated })
      (fun q => rfl)]
    exact hU
  have hrem := lookupPid_remove_from_table_self
    { updatePid s pid (fun q => { q with state := PState.terminated }) with
      mem := stack_free (updatePid s pid
        (fun q => { q with state := PState.terminated })).mem pid } pid hU1
  split
  · exact hrem
  · exact hrem

/-- C4: a `Current` process with a positive required time, charged one tick
of CPU time by `scheduler_tick`, is terminated by exactly the tick on which
its accumulated CPU time reaches the required time: when the charge makes
`cpu_time` equal `required_time` the process is removed from the table (and
the accounting equality holds at that moment by construction), and when the
charge still leaves `cpu_time` below `required_time` the process survives
the tick with its CPU time advanced by exactly one and its required time
unchanged.  (Pids are pairwise distinct in every reachable table; the
hypothesis `hU` states that invariant.) -/
theorem C4_tick_exact_completion (s : KState) (cp : Nat) (cur : PCB)
    (hrun : s.schedulerRunning = true)
    (hcur : s.current = some cp)
    (hlook : lookupPid s cp = some cur)
    (hreq : 0 < cur.requiredTime)
    (hU : (pidsOf s.processTable).Nodup) :
    (cur.cpuTime + 1 = cur.requiredTime →
      lookupPid (SchedulerC.scheduler_tick s) cp = none) ∧
    (cur.cpuTime + 1 < cur.requiredTime →
      ∃ p, lookupPid (SchedulerC.scheduler_tick s) cp = some p ∧
        p.cpuTime = cur.cpuTime + 1 ∧ p.requiredTime = cur.requiredTime) := by
  unfold SchedulerC.scheduler_tick
  rw [if_neg (show ¬ ((!s.schedulerRunning) = true) from by rw [hrun]; decide)]
  dsimp only
  rw [hcur]
  dsimp only
  set t : KState := { s with currentTick := s.currentTick + 1, statTotalTicks := s.statTotalTicks + 1, current := some cp } with ht
  rw [show lookupPid t cp = some cur from hlook]
  dsimp only
  have hl2 : lookupPid (updatePid t cp (fun p => { p with cpuTime := p.cpuTime + 1 })) cp =
      some { cur with cpuTime := cur.cpuTime + 1 } := by
    rw [lookupPid_updatePid t cp (fun p => { p with cpuTime := p.cpuTime + 1 })
      (fun q => rfl) cp, if_pos rfl, show lookupPid t cp = some cur from hlook]
    rfl
  rw [hl2]
  dsimp only
  have hU2 : (pidsOf (updatePid t cp
      (fun p => { p with cpuTime := p.cpuTime + 1 })).processTable).Nodup := by
    rw [pidsOf_updatePid t cp (fun p => { p with cpuTime := p.cpuTime + 1 })
      (fun q => rfl)]
    exact hU
  constructor
  · intro heq
    rw [if_pos (show 0 < cur.requiredTime ∧ cur.requiredTime ≤ cur.cpuTime + 1 from
      ⟨hreq, le_of_eq heq.symm⟩)]
    have hterm := lookupPid_terminate_self _ cp { cur with cpuTime := cur.cpuTime + 1 }
      hl2 hU2
    have h5 := core_schedule (process_terminate (updatePid t cp
      (fun p => { p with cpuTime := p.cpuTime + 1 })) cp) cp
    rw [hterm] at h5
    exact Option.map_eq_none'.mp h5
  · intro hlt
    rw [if_neg (show ¬ (0 < cur.requiredTime ∧ cur.requiredTime ≤ cur.cpuTime + 1) from
      fun hcontra => absurd hcontra.2 (by omega))]
    have hcore : ∀ (u : KState),
        (lookupPid u cp).map core = (lookupPid (updatePid t cp
          (fun p => { p with cpuTime := p.cpuTime + 1 })) cp).map core →
        ∃ p, lookupPid u cp = some p ∧
          p.cpuTime = cur.cpuTime + 1 ∧ p.requiredTime = cur.requiredTime := by
      intro u hu
      rw [hl2] at hu
      cases hlu : lookupPid u cp with
      | none => rw [hlu] at hu; exact absurd hu (by simp)
      | some q =>
        rw [hlu] at hu
        have hc := Option.some.inj hu
        exact ⟨q, rfl, congrArg (fun z => z.2.1) hc, congrArg (fun z => z.2.2) hc⟩
    by_cases hts : 0 < (updatePid t cp
        (fun p => { p with cpuTime := p.cpuTime + 1 })).timeSliceRemaining
    · rw [if_pos hts]
      split
      · exact hcore _ (core_schedule _ cp)
      · split
        · exact hcore _ (core_check_aging _ cp)
        · exact hcore _ rfl
    · rw [if_neg hts]
      split
      · exact hcore _ (core_schedule _ cp)
      · split
        · exact hcore _ (core_check_aging _ cp)
        · exact hcore _ rfl

/-- Witness PCB for C4: one tick away from completion. -/
def c4_pcb : PCB :=
  { mkPCB 1 PState.current PROC_PRIORITY_NORMAL with cpuTime := 4, requiredTime := 5 }

/-- Witness state for C4: the scheduler runs, pid 1 is current. -/
def c4w : KState :=
  { kernelBoot with
    schedulerRunning := true
    current := some 1
    processTable :=
      (List.replicate MAX_PROCESSES (none : Option PCB)).set 0 (some c4_pcb) }

theorem C4_witness :
    c4_pcb.cpuTime + 1 = c4_pcb.requiredTime ∧
    lookupPid (SchedulerC.scheduler_tick c4w) 1 = none := by
  have h := C4_tick_exact_completion c4w 1 c4_pcb rfl rfl rfl (by decide) (by decide)
  exact ⟨by decide, h.1 (by decide)⟩
